import Mathlib

/-!
GreenThreads: the scheduler's data state.

A shallow embedding of `src/Thread.cpp`, `src/Scheduler.cpp` and `src/lib.cpp`,
in four layers.

Data layer (`Scheduler`, `uthread_init` .. `uthread_get_quantums`, `apiCall`,
`exec`).

* A `Thread` keeps the fields the scheduler reads and writes (`id`, `state`,
  `entryPoint`, `run_quantums`, `sleep_quantum`).  The stack and the contents of
  the `sigjmp_buf` are not part of the embedding: a context switch is the change
  it makes to the scheduler's data.
* `threads` (an `unordered_map<int, unique_ptr<Thread>>`) is an association
  list with the operations the code uses (`find`, `erase`, `operator[]`).
* A `Thread*` (the entries of `ready_queue`, `current_thread`) is modelled by
  the id of the `Thread` object it pointed to when it was stored.  Reading or
  writing through a pointer whose object has been erased from `threads` is
  undefined behaviour; such a step has no result (`none`).
* `int` fields are unbounded integers: the layer describes the executions in
  which no counter reaches `INT_MAX`.
* `mkScheduler` and `uthread_init` give the state the constructor writes when
  the construction of the main thread completes.

32-bit layer (`wrap32` and the definitions whose names end in `32`): the same
methods with `n++` on a 32-bit `int`.  Signed overflow, undefined in the
language, is taken to wrap around in two's complement.  This layer is used where
a counter passes `INT_MAX`.

Construction layer (`Thread.setupContext`, `Thread.construct`,
`Scheduler.construct`, `uthread_init_ctx`): the constructors as they are
written, with the read of the entry point's target in `setupContext`.

Address layer (`ThreadHeap`, `PtrScheduler`): a `Thread*` is the address of a
heap block, and the allocator hands out the block freed last.  This layer is
used where the identity of the pointers, and not of the ids, matters.
-/

namespace GreenThreads

/-- Thread states, `Thread::State` of `Thread.h`. -/
inductive State where
  | READY
  | RUNNING
  | BLOCKED
  | TERMINATED
deriving DecidableEq, Repr

/-- Entry point of a thread: the address of a function, `none` for `nullptr`. -/
abbrev EntryPoint := Option Nat

/-- The scheduler-visible fields of `class Thread`. -/
structure Thread where
  id : Int
  state : State
  entryPoint : EntryPoint
  run_quantums : Int
  sleep_quantum : Int
deriving DecidableEq, Repr

/-- Constructor `Thread::Thread(id, entryPoint)`: state READY, both counters 0. -/
def mkThread (id : Int) (entryPoint : EntryPoint) : Thread :=
  { id := id, state := State.READY, entryPoint := entryPoint,
    run_quantums := 0, sleep_quantum := 0 }

/-- Accessor `Thread::getId`. -/
def Thread.getId (t : Thread) : Int := t.id

/-- Accessor `Thread::getState`. -/
def Thread.getState (t : Thread) : State := t.state

/-- Mutator `Thread::setState`. -/
def Thread.setState (t : Thread) (newState : State) : Thread :=
  { t with state := newState }

/-- Mutator `Thread::incrementQuantum`: `run_quantums++`, on an unbounded
integer (`Thread.incrementQuantum32` is the 32-bit one). -/
def Thread.incrementQuantum (t : Thread) : Thread :=
  { t with run_quantums := t.run_quantums + 1 }

/-- Accessor `Thread::getQuantums`. -/
def Thread.getQuantums (t : Thread) : Int := t.run_quantums

/-- Mutator `Thread::sleep`: `sleep_quantum = quantums`. -/
def Thread.sleep (t : Thread) (quantums : Int) : Thread :=
  { t with sleep_quantum := quantums }

/-- Mutator `Thread::tickSleep`: decrement a positive countdown. -/
def Thread.tickSleep (t : Thread) : Thread :=
  if 0 < t.sleep_quantum then { t with sleep_quantum := t.sleep_quantum - 1 } else t

/-- Accessor `Thread::isAwake`: `sleep_quantum <= 0`. -/
def Thread.isAwake (t : Thread) : Bool := decide (t.sleep_quantum ≤ 0)

/-- The map `threads`: keys with the thread objects they own. -/
abbrev ThreadMap := List (Int × Thread)

/-- Lookup `threads.find(tid)`: the object owned under `tid`, if any. -/
def findThread : ThreadMap → Int → Option Thread
  | [], _ => none
  | (k, t) :: m, tid => if k = tid then some t else findThread m tid

/-- Removal `threads.erase(tid)`: the entry for `tid` is removed (and destroyed). -/
def eraseThread (m : ThreadMap) (tid : Int) : ThreadMap :=
  m.filter (fun p => decide (p.1 ≠ tid))

/-- Assignment `threads[tid] = t`: replaces the object under `tid`, or adds the key. -/
def assignThread : ThreadMap → Int → Thread → ThreadMap
  | [], tid, t => [(tid, t)]
  | (k, u) :: m, tid, t =>
    if k = tid then (k, t) :: m else (k, u) :: assignThread m tid t

/-- A write through a `Thread*`: the object owned under `tid` becomes `f` of itself. -/
def modifyThread (m : ThreadMap) (tid : Int) (f : Thread → Thread) : ThreadMap :=
  m.map (fun p => if p.1 = tid then (p.1, f p.2) else p)

/-- The data members of `class Scheduler`. -/
structure Scheduler where
  threads : ThreadMap
  ready_queue : List Int
  current_thread : Int
  next_tid : Int
  total_quantums : Int
  quantum_usecs : Int
deriving DecidableEq, Repr

/-- The constant `MAIN_TID`. -/
def MAIN_TID : Int := 0

/-- The largest `int`. -/
def INT_MAX : Int := 2147483647

/-- Constructor `Scheduler::Scheduler(quantum_usecs)`, the state that lines 19-24
write when the construction of the main thread completes: the main thread is
created with id 0 and no entry point, set RUNNING, made current and stored in
`threads`; `total_quantums = 1`; `next_tid` keeps its initialiser 1 and the queue
is empty.  (`Scheduler.construct` is the constructor with the `setupContext` of
the main thread.) -/
def mkScheduler (quantum_usecs : Int) : Scheduler :=
  let mainThread := (mkThread MAIN_TID none).setState State.RUNNING
  { threads := assignThread [] MAIN_TID mainThread,
    ready_queue := [],
    current_thread := MAIN_TID,
    next_tid := 1,
    total_quantums := 1,
    quantum_usecs := quantum_usecs }

/-- The loop of `Scheduler::generateId`: while `next_tid` is a key, `next_tid++`.
The fuel bounds the number of iterations; `none` when it runs out. -/
def generateIdLoop (threads : ThreadMap) : Nat → Int → Option Int
  | 0, _ => none
  | fuel + 1, n =>
    if (findThread threads n).isSome then generateIdLoop threads fuel (n + 1)
    else some n

/-- Method `Scheduler::generateId`: skip the live ids, then `return next_tid++`,
on an unbounded integer (`Scheduler.generateId32` is the 32-bit one). -/
def Scheduler.generateId (s : Scheduler) : Option (Int × Scheduler) :=
  match generateIdLoop s.threads (s.threads.length + 1) s.next_tid with
  | none => none
  | some n => some (n, { s with next_tid := n + 1 })

/-- Method `Scheduler::getCurrentTid`: `current_thread->getId()`; no result when
the object behind `current_thread` has been destroyed.  (The pointer is set by
the constructor and afterwards only from queue entries, so it is never null and
the `-1` branch is not taken.) -/
def Scheduler.getCurrentTid (s : Scheduler) : Option Int :=
  (findThread s.threads s.current_thread).map Thread.getId

/-- Method `Scheduler::getTotalQuantums`. -/
def Scheduler.getTotalQuantums (s : Scheduler) : Int := s.total_quantums

/-- Method `Scheduler::getThreadQuantums`: the counter of `tid`, or -1. -/
def Scheduler.getThreadQuantums (s : Scheduler) (tid : Int) : Int :=
  match findThread s.threads tid with
  | some t => t.getQuantums
  | none => -1

/-- Step 1 of `switchContext` (lines 78-81): a RUNNING outgoing thread is set
READY and pushed at the back of the queue. -/
def Scheduler.handleOutgoing (s : Scheduler) : Option Scheduler :=
  match findThread s.threads s.current_thread with
  | none => none
  | some cur =>
    if cur.getState = State.RUNNING then
      some { s with
        threads := modifyThread s.threads s.current_thread (fun t => t.setState State.READY),
        ready_queue := s.ready_queue ++ [s.current_thread] }
    else some s

/-- Step 2 of `switchContext` (lines 84-87): when the queue is not empty its
front becomes `current_thread` and is popped. -/
def Scheduler.selectNext (s : Scheduler) : Scheduler :=
  match s.ready_queue with
  | [] => s
  | front :: rest => { s with current_thread := front, ready_queue := rest }

/-- Step 3 of `switchContext` (lines 89-93): the elected thread is set RUNNING,
`total_quantums++`, and its `run_quantums++`, on unbounded integers
(`Scheduler.install32` is the 32-bit one). -/
def Scheduler.install (s : Scheduler) : Option Scheduler :=
  match findThread s.threads s.current_thread with
  | none => none
  | some _ =>
    some { s with
      threads := modifyThread s.threads s.current_thread
        (fun t => (t.setState State.RUNNING).incrementQuantum),
      total_quantums := s.total_quantums + 1 }

/-- Method `Scheduler::switchContext`. -/
def Scheduler.switchContext (s : Scheduler) : Option Scheduler :=
  match s.handleOutgoing with
  | none => none
  | some s1 => s1.selectNext.install

/-- Handler `Scheduler::timerHandler`: the context of the current thread is
saved (a read through `current_thread`), then `switchContext` runs. -/
def Scheduler.timerHandler (s : Scheduler) : Option Scheduler :=
  match findThread s.threads s.current_thread with
  | none => none
  | some _ => s.switchContext

/-- Method `Scheduler::spawn`: a fresh id, a new READY thread stored under it and
pushed at the back of the queue; the id is returned.  The queue entry is the id
of the new object (`PtrScheduler.spawn` pushes its address). -/
def Scheduler.spawn (s : Scheduler) (entryPoint : EntryPoint) : Option (Int × Scheduler) :=
  match s.generateId with
  | none => none
  | some (tid, s1) =>
    some (tid, { s1 with
      threads := assignThread s1.threads tid (mkThread tid entryPoint),
      ready_queue := s1.ready_queue ++ [tid] })

/-- Method `Scheduler::terminate`: -1 for an unknown id; otherwise the entry is
erased, and when the id equals `getCurrentTid()` the pending signal runs the
handler once signals are unblocked; 0 is returned. -/
def Scheduler.terminate (s : Scheduler) (tid : Int) : Option (Int × Scheduler) :=
  match findThread s.threads tid with
  | none => some (-1, s)
  | some _ =>
    let s1 := { s with threads := eraseThread s.threads tid }
    match s1.getCurrentTid with
    | none => none
    | some cur =>
      if tid = cur then
        match s1.timerHandler with
        | none => none
        | some s2 => some (0, s2)
      else some (0, s1)

/-- Method `Scheduler::block`: a placeholder returning 0. -/
def Scheduler.block (s : Scheduler) (_tid : Int) : Option (Int × Scheduler) := some (0, s)

/-- Method `Scheduler::resume`: a placeholder returning 0. -/
def Scheduler.resume (s : Scheduler) (_tid : Int) : Option (Int × Scheduler) := some (0, s)

/-- Method `Scheduler::sleep`: a placeholder returning 0. -/
def Scheduler.sleep (s : Scheduler) (_quantums : Int) : Option (Int × Scheduler) := some (0, s)

/-- Outcome of a call of the C API of `lib.cpp`: a return value together with the
static `scheduler` pointer (`none` for `nullptr`), the exit of the process, or
undefined behaviour. -/
inductive Outcome where
  | ret (value : Int) (scheduler : Option Scheduler)
  | exited (code : Int)
  | undefined
deriving DecidableEq, Repr

/-- A call forwarded to an initialised scheduler. -/
def forward (r : Option (Int × Scheduler)) : Outcome :=
  match r with
  | none => Outcome.undefined
  | some (v, s) => Outcome.ret v (some s)

/-- Entry `uthread_init` (lib.cpp 8-18), with the constructor taken to complete
(`mkScheduler`); `uthread_init_ctx` is the entry with the constructor as it is
written. -/
def uthread_init (scheduler : Option Scheduler) (quantum_usecs : Int) : Outcome :=
  if quantum_usecs ≤ 0 then Outcome.ret (-1) scheduler
  else if scheduler.isSome then Outcome.ret (-1) scheduler
  else Outcome.ret 0 (some (mkScheduler quantum_usecs))

/-- Entry `uthread_spawn` (lib.cpp 20-23). -/
def uthread_spawn (scheduler : Option Scheduler) (entry_point : EntryPoint) : Outcome :=
  match scheduler, entry_point with
  | some s, some e => forward (s.spawn (some e))
  | _, _ => Outcome.ret (-1) scheduler

/-- Entry `uthread_terminate` (lib.cpp 25-34): id 0 ends the process. -/
def uthread_terminate (scheduler : Option Scheduler) (tid : Int) : Outcome :=
  match scheduler with
  | none => Outcome.ret (-1) scheduler
  | some s => if tid = 0 then Outcome.exited 0 else forward (s.terminate tid)

/-- Entry `uthread_block` (lib.cpp 37). -/
def uthread_block (scheduler : Option Scheduler) (tid : Int) : Outcome :=
  match scheduler with
  | none => Outcome.ret (-1) scheduler
  | some s => forward (s.block tid)

/-- Entry `uthread_resume` (lib.cpp 38). -/
def uthread_resume (scheduler : Option Scheduler) (tid : Int) : Outcome :=
  match scheduler with
  | none => Outcome.ret (-1) scheduler
  | some s => forward (s.resume tid)

/-- Entry `uthread_sleep` (lib.cpp 39). -/
def uthread_sleep (scheduler : Option Scheduler) (q : Int) : Outcome :=
  match scheduler with
  | none => Outcome.ret (-1) scheduler
  | some s => forward (s.sleep q)

/-- Entry `uthread_get_tid` (lib.cpp 40). -/
def uthread_get_tid (scheduler : Option Scheduler) : Outcome :=
  match scheduler with
  | none => Outcome.ret (-1) scheduler
  | some s => forward (s.getCurrentTid.map (fun v => (v, s)))

/-- Entry `uthread_get_total_quantums` (lib.cpp 41). -/
def uthread_get_total_quantums (scheduler : Option Scheduler) : Outcome :=
  match scheduler with
  | none => Outcome.ret (-1) scheduler
  | some s => Outcome.ret s.getTotalQuantums scheduler

/-- Entry `uthread_get_quantums` (lib.cpp 42). -/
def uthread_get_quantums (scheduler : Option Scheduler) (tid : Int) : Outcome :=
  match scheduler with
  | none => Outcome.ret (-1) scheduler
  | some s => Outcome.ret (s.getThreadQuantums tid) scheduler

/-- The events that change the scheduler: the mutating API calls and the delivery
of the timer signal. -/
inductive Op where
  | spawn (entry_point : EntryPoint)
  | terminate (tid : Int)
  | block (tid : Int)
  | resume (tid : Int)
  | sleep (q : Int)
  | timer
deriving DecidableEq, Repr

/-- One event on the library state: the API entry it names, or `timerHandler`
(which returns at once while `g_scheduler` is null). -/
def apiCall (scheduler : Option Scheduler) : Op → Outcome
  | Op.spawn e => uthread_spawn scheduler e
  | Op.terminate tid => uthread_terminate scheduler tid
  | Op.block tid => uthread_block scheduler tid
  | Op.resume tid => uthread_resume scheduler tid
  | Op.sleep q => uthread_sleep scheduler q
  | Op.timer =>
    match scheduler with
    | none => Outcome.ret 0 none
    | some s => forward (s.timerHandler.map (fun s1 => (0, s1)))

/-- A sequence of events from an initialised scheduler: the final scheduler when
every event returns to an initialised library. -/
def exec (s : Scheduler) : List Op → Option Scheduler
  | [] => some s
  | op :: ops =>
    match apiCall (some s) op with
    | Outcome.ret _ (some s1) => exec s1 ops
    | _ => none

/-- The scheduler states reachable from a successful `uthread_init` by API calls
that return and timer preemptions.  (`uthread_terminate(0)` exits the process and
so leads to no state.) -/
inductive Reachable : Scheduler → Prop
  | init (q : Int) (s : Scheduler) :
      uthread_init none q = Outcome.ret 0 (some s) → Reachable s
  | step (s : Scheduler) (op : Op) (v : Int) (s1 : Scheduler) :
      Reachable s → apiCall (some s) op = Outcome.ret v (some s1) → Reachable s1

/-- Sum of `run_quantums` over the threads of a map. -/
def sumRunQuantums (m : ThreadMap) : Int :=
  (m.map (fun p => p.2.run_quantums)).sum

/-- Number of keys of the map that are at least `n`. -/
def keysFrom (m : ThreadMap) (n : Int) : Nat :=
  (m.filter (fun p => decide (n ≤ p.1))).length

/-- Facts about ids that hold in every reachable state. -/
structure IdInv (s : Scheduler) : Prop where
  queue_nodup : s.ready_queue.Nodup
  queue_lt : ∀ x ∈ s.ready_queue, x < s.next_tid
  keys_lt : ∀ k, (findThread s.threads k).isSome → k < s.next_tid
  current_not_queued : s.current_thread ∉ s.ready_queue
  current_lt : s.current_thread < s.next_tid
  next_pos : 1 ≤ s.next_tid

/-- The events of a run that returned to an initialised library, each with its
return value, in order. -/
def trace (s : Scheduler) : List Op → List (Op × Int)
  | [] => []
  | op :: ops =>
    match apiCall (some s) op with
    | Outcome.ret v (some s1) => (op, v) :: trace s1 ops
    | _ => []

/-- The schedulers a run passes through, the first one included. -/
def runStates (s : Scheduler) : List Op → List Scheduler
  | [] => [s]
  | op :: ops =>
    s :: (match apiCall (some s) op with
          | Outcome.ret _ (some s1) => runStates s1 ops
          | _ => [])

/-- Relation between an earlier event `x` and a later event `y` of a run, each
with its return value: when `y` is a spawn with an entry point, its id is
greater than the id an earlier such spawn returned, and greater than the id an
earlier terminate that returned 0 destroyed. -/
def IdOrder (x y : Op × Int) : Prop :=
  match y.1 with
  | Op.spawn (some _) =>
    (match x.1 with
     | Op.spawn (some _) => x.2 < y.2
     | Op.terminate tid => x.2 = 0 → tid < y.2
     | _ => True)
  | _ => True

/-- The scheduler after `init(q)`, `spawn(f)`, `spawn(g)` and `k` preemptions, in
closed form: thread `k % 3` is current, the other two are queued in round-robin
order, and the counters are the numbers of elections so far. -/
def rrState (q : Int) (f g : Nat) (k : Nat) : Scheduler :=
  { threads :=
      [(0, { id := 0,
             state := if k % 3 = 0 then State.RUNNING else State.READY,
             entryPoint := none,
             run_quantums := ((k / 3 : Nat) : Int), sleep_quantum := 0 }),
       (1, { id := 1,
             state := if k % 3 = 1 then State.RUNNING else State.READY,
             entryPoint := some f,
             run_quantums := (((k + 2) / 3 : Nat) : Int), sleep_quantum := 0 }),
       (2, { id := 2,
             state := if k % 3 = 2 then State.RUNNING else State.READY,
             entryPoint := some g,
             run_quantums := (((k + 1) / 3 : Nat) : Int), sleep_quantum := 0 })],
    ready_queue := [(((k + 1) % 3 : Nat) : Int), (((k + 2) % 3 : Nat) : Int)],
    current_thread := ((k % 3 : Nat) : Int),
    next_tid := 3,
    total_quantums := 1 + (k : Int),
    quantum_usecs := q }

/-- State of a run of `init` and `j` spawns: main is current and RUNNING, the
threads 0..j are live, the ids 1..j are queued in order and the cursor is j+1. -/
structure SpawnedUpTo (j : Nat) (s : Scheduler) : Prop where
  current : s.current_thread = 0
  cursor : s.next_tid = (j : Int) + 1
  queue : s.ready_queue = (List.range j).map (fun (i : Nat) => (i : Int) + 1)
  live : ∀ i : Nat, i ≤ j → (findThread s.threads (i : Int)).isSome
  keys_lt : ∀ k : Int, (findThread s.threads k).isSome → k < s.next_tid
  running : (findThread s.threads 0).map Thread.getState = some State.RUNNING

/-- State of a round-robin run over the threads 0..n after `k` preemptions. -/
structure RoundRobin (n k : Nat) (s : Scheduler) : Prop where
  current : s.current_thread = ((k % (n + 1) : Nat) : Int)
  queue : s.ready_queue = (List.range n).map (fun (i : Nat) => (((k + 1 + i) % (n + 1) : Nat) : Int))
  live : ∀ i : Nat, i ≤ n → (findThread s.threads (i : Int)).isSome
  running : (findThread s.threads s.current_thread).map Thread.getState = some State.RUNNING

/-- The main thread as the constructor of the scheduler leaves it. -/
def mainThread : Thread :=
  { id := 0, state := State.RUNNING, entryPoint := none, run_quantums := 0, sleep_quantum := 0 }

/-- Scenario state: the scheduler after `init(100000)` and one `spawn` (entry 7). -/
def oneSpawned : Scheduler :=
  { threads := [(0, mainThread), (1, mkThread 1 (some 7))],
    ready_queue := [1], current_thread := 0, next_tid := 2,
    total_quantums := 1, quantum_usecs := 100000 }

/-- Scenario state: the scheduler after `init(100000)`, `spawn` and `terminate(1)`. -/
def oneTerminated : Scheduler :=
  { threads := [(0, mainThread)],
    ready_queue := [1], current_thread := 0, next_tid := 2,
    total_quantums := 1, quantum_usecs := 100000 }

/-- Scenario state: the scheduler after `init(100000)`, two spawns (entries 7
and 8) and `terminate(1)`. -/
def twoSpawnedOneTerminated : Scheduler :=
  { threads := [(0, mainThread), (2, mkThread 2 (some 8))],
    ready_queue := [1, 2], current_thread := 0, next_tid := 3,
    total_quantums := 1, quantum_usecs := 100000 }

/-- Scenario state: the scheduler after `init(100000)`, one `spawn` (entry 7) and
one preemption, which elected thread 1. -/
def oneElected : Scheduler :=
  { threads := [(0, { id := 0, state := State.READY, entryPoint := none,
                      run_quantums := 0, sleep_quantum := 0 }),
                (1, { id := 1, state := State.RUNNING, entryPoint := some 7,
                      run_quantums := 1, sleep_quantum := 0 })],
    ready_queue := [0], current_thread := 1, next_tid := 2,
    total_quantums := 2, quantum_usecs := 100000 }

/-- The events of a run without terminate, block, resume and sleep. -/
def Op.isSpawnOrTimer : Op → Bool
  | Op.spawn _ => true
  | Op.timer => true
  | _ => false

/-- Facts kept by spawns and preemptions: keys are unique, the current thread and
the queued threads are live, and `total_quantums` is 1 plus the sum of
`run_quantums`. -/
structure QuantumInv (s : Scheduler) : Prop where
  keys_nodup : (s.threads.map Prod.fst).Nodup
  queue_live : ∀ x ∈ s.ready_queue, (findThread s.threads x).isSome
  current_live : (findThread s.threads s.current_thread).isSome
  total : s.total_quantums = 1 + sumRunQuantums s.threads

/-- What the body of a gated method does, in program order: a call of
`blockSignals`, a call of `unblockSignals`, or a statement that reads or writes
`threads`, `ready_queue` or `next_tid`. -/
inductive GateEvent where
  | mask
  | unmask
  | access
deriving DecidableEq, Repr

/-- The preemption-signal mask of the calling thread (`true` when SIGVTALRM is
blocked) together with the log of the events of the call so far. -/
structure Gate where
  masked : Bool
  events : List GateEvent
deriving DecidableEq, Repr

/-- A statement that reads or writes `threads`, `ready_queue` or `next_tid`. -/
def Gate.access (g : Gate) : Gate :=
  { g with events := g.events ++ [GateEvent.access] }

/-- The least `int`. -/
def INT_MIN : Int := -2147483648

/-- Value that a 32-bit `int` takes for the arithmetic result `x`: two's
complement wrap-around, `x` modulo `2^32` brought into `INT_MIN .. INT_MAX`. -/
def wrap32 (x : Int) : Int := (x + 2147483648) % 4294967296 - 2147483648

/-- Mutator `Thread::incrementQuantum` on a 32-bit `int`: `run_quantums++`. -/
def Thread.incrementQuantum32 (t : Thread) : Thread :=
  { t with run_quantums := wrap32 (t.run_quantums + 1) }

/-- The loop of `Scheduler::generateId` on a 32-bit `int`: while `next_tid` is a
key, `next_tid++`.  The fuel bounds the number of iterations. -/
def generateIdLoop32 (threads : ThreadMap) : Nat → Int → Option Int
  | 0, _ => none
  | fuel + 1, n =>
    if (findThread threads n).isSome then generateIdLoop32 threads fuel (wrap32 (n + 1))
    else some n

/-- Method `Scheduler::generateId` on a 32-bit `int`: skip the live ids, then
`return next_tid++`. -/
def Scheduler.generateId32 (s : Scheduler) : Option (Int × Scheduler) :=
  match generateIdLoop32 s.threads (s.threads.length + 1) s.next_tid with
  | none => none
  | some n => some (n, { s with next_tid := wrap32 (n + 1) })

/-- Step 3 of `switchContext` (lines 89-93) on 32-bit `int`s: the elected thread
is set RUNNING, `total_quantums++`, and its `run_quantums++`. -/
def Scheduler.install32 (s : Scheduler) : Option Scheduler :=
  match findThread s.threads s.current_thread with
  | none => none
  | some _ =>
    some { s with
      threads := modifyThread s.threads s.current_thread
        (fun t => (t.setState State.RUNNING).incrementQuantum32),
      total_quantums := wrap32 (s.total_quantums + 1) }

/-- Method `Scheduler::switchContext` on 32-bit `int`s. -/
def Scheduler.switchContext32 (s : Scheduler) : Option Scheduler :=
  match s.handleOutgoing with
  | none => none
  | some s1 => s1.selectNext.install32

/-- Handler `Scheduler::timerHandler` on 32-bit `int`s. -/
def Scheduler.timerHandler32 (s : Scheduler) : Option Scheduler :=
  match findThread s.threads s.current_thread with
  | none => none
  | some _ => s.switchContext32

/-- Method `Scheduler::spawn` on 32-bit `int`s. -/
def Scheduler.spawn32 (s : Scheduler) (entryPoint : EntryPoint) : Option (Int × Scheduler) :=
  match s.generateId32 with
  | none => none
  | some (tid, s1) =>
    some (tid, { s1 with
      threads := assignThread s1.threads tid (mkThread tid entryPoint),
      ready_queue := s1.ready_queue ++ [tid] })

/-- Method `Scheduler::terminate` on 32-bit `int`s (the handler of the pending
signal is the 32-bit one). -/
def Scheduler.terminate32 (s : Scheduler) (tid : Int) : Option (Int × Scheduler) :=
  match findThread s.threads tid with
  | none => some (-1, s)
  | some _ =>
    let s1 := { s with threads := eraseThread s.threads tid }
    match s1.getCurrentTid with
    | none => none
    | some cur =>
      if tid = cur then
        match s1.timerHandler32 with
        | none => none
        | some s2 => some (0, s2)
      else some (0, s1)

/-- Entry `uthread_spawn` (lib.cpp 20-23) on 32-bit `int`s. -/
def uthread_spawn32 (scheduler : Option Scheduler) (entry_point : EntryPoint) : Outcome :=
  match scheduler, entry_point with
  | some s, some e => forward (s.spawn32 (some e))
  | _, _ => Outcome.ret (-1) scheduler

/-- Entry `uthread_terminate` (lib.cpp 25-34) on 32-bit `int`s. -/
def uthread_terminate32 (scheduler : Option Scheduler) (tid : Int) : Outcome :=
  match scheduler with
  | none => Outcome.ret (-1) scheduler
  | some s => if tid = 0 then Outcome.exited 0 else forward (s.terminate32 tid)

/-- One event on the library state, on 32-bit `int`s. -/
def apiCall32 (scheduler : Option Scheduler) : Op → Outcome
  | Op.spawn e => uthread_spawn32 scheduler e
  | Op.terminate tid => uthread_terminate32 scheduler tid
  | Op.block tid => uthread_block scheduler tid
  | Op.resume tid => uthread_resume scheduler tid
  | Op.sleep q => uthread_sleep scheduler q
  | Op.timer =>
    match scheduler with
    | none => Outcome.ret 0 none
    | some s => forward (s.timerHandler32.map (fun s1 => (0, s1)))

/-- A sequence of events from an initialised scheduler, on 32-bit `int`s. -/
def exec32 (s : Scheduler) : List Op → Option Scheduler
  | [] => some s
  | op :: ops =>
    match apiCall32 (some s) op with
    | Outcome.ret _ (some s1) => exec32 s1 ops
    | _ => none

/-- The schedulers a run on 32-bit `int`s passes through, the first one included. -/
def runStates32 (s : Scheduler) : List Op → List Scheduler
  | [] => [s]
  | op :: ops =>
    s :: (match apiCall32 (some s) op with
          | Outcome.ret _ (some s1) => runStates32 s1 ops
          | _ => [])

/-- The scheduler states reachable on 32-bit `int`s from a successful
`uthread_init` by API calls that return and timer preemptions. -/
inductive Reachable32 : Scheduler → Prop
  | init (q : Int) (s : Scheduler) :
      uthread_init none q = Outcome.ret 0 (some s) → Reachable32 s
  | step (s : Scheduler) (op : Op) (v : Int) (s1 : Scheduler) :
      Reachable32 s → apiCall32 (some s) op = Outcome.ret v (some s1) → Reachable32 s1

/-- The scheduler after `init(q)`, `spawn(f)`, `spawn(g)` and `k` preemptions on
32-bit `int`s, in closed form: the state `rrState` with every counter wrapped. -/
def rrState32 (q : Int) (f g : Nat) (k : Nat) : Scheduler :=
  { threads :=
      [(0, { id := 0,
             state := if k % 3 = 0 then State.RUNNING else State.READY,
             entryPoint := none,
             run_quantums := wrap32 ((k / 3 : Nat) : Int), sleep_quantum := 0 }),
       (1, { id := 1,
             state := if k % 3 = 1 then State.RUNNING else State.READY,
             entryPoint := some f,
             run_quantums := wrap32 (((k + 2) / 3 : Nat) : Int), sleep_quantum := 0 }),
       (2, { id := 2,
             state := if k % 3 = 2 then State.RUNNING else State.READY,
             entryPoint := some g,
             run_quantums := wrap32 (((k + 1) / 3 : Nat) : Int), sleep_quantum := 0 })],
    ready_queue := [(((k + 1) % 3 : Nat) : Int), (((k + 2) % 3 : Nat) : Int)],
    current_thread := ((k % 3 : Nat) : Int),
    next_tid := 3,
    total_quantums := wrap32 (1 + (k : Int)),
    quantum_usecs := q }

/-- The queue entries that `n` spawns each followed by the terminate of the new
thread leave behind: the ids 1..n of the destroyed threads. -/
def staleQueue (n : Nat) : List Int :=
  (List.range n).map (fun (i : Nat) => (i : Int) + 1)

/-- The scheduler after `init(q)` and `n` times `t = spawn(f); terminate(t)`:
only main is live, the queue holds the entries of the `n` destroyed threads and
the cursor is `n + 1`. -/
def churnState (q : Int) (n : Nat) : Scheduler :=
  { threads := [(0, mainThread)],
    ready_queue := staleQueue n,
    current_thread := 0,
    next_tid := (n : Int) + 1,
    total_quantums := 1,
    quantum_usecs := q }

/-- Facts kept by spawns and preemptions on 32-bit counters while
`total_quantums` has not overflowed: `QuantumInv` and no negative counter. -/
structure CounterInv (s : Scheduler) : Prop where
  quantum : QuantumInv s
  nonneg : ∀ p ∈ s.threads, 0 ≤ p.2.run_quantums

/-- The scheduler after `init(100000)`, 2147483646 times
`t = spawn(f); terminate(t)`, and one more `spawn(7)` on 32-bit `int`s: the
spawn returned `INT_MAX` and `next_tid++` wrapped to `INT_MIN`. -/
def cursorWrapped : Scheduler :=
  { threads := [(0, mainThread), (2147483647, mkThread 2147483647 (some 7))],
    ready_queue := staleQueue 2147483646 ++ [2147483647],
    current_thread := 0,
    next_tid := -2147483648,
    total_quantums := 1,
    quantum_usecs := 100000 }

/-! ## The construction layer -/

/-- Method `Thread::setupContext` (Thread.cpp 40-66) as far as it decides
whether the construction of a thread completes: line 49 reads
`*entryPoint.target<void(*)()>()`, and for an empty `std::function` (one built
from `nullptr`) `target` returns the null pointer, so that the read is undefined
behaviour and the method has no result.  The contents of the jump buffer are not
modelled. -/
def Thread.setupContext (t : Thread) : Option Thread :=
  match t.entryPoint with
  | none => none
  | some _ => some t

/-- Constructor `Thread::Thread` (Thread.cpp 6-11) with the call of
`setupContext` in its body. -/
def Thread.construct (id : Int) (entryPoint : EntryPoint) : Option Thread :=
  (mkThread id entryPoint).setupContext

/-- Constructor `Scheduler::Scheduler` (Scheduler.cpp 10-27) as it is written:
line 19 constructs the main thread by `make_unique<Thread>(MAIN_TID, nullptr)`,
and lines 20-26 run only when that construction completes. -/
def Scheduler.construct (quantum_usecs : Int) : Option Scheduler :=
  match Thread.construct MAIN_TID none with
  | none => none
  | some t =>
    some { threads := assignThread [] MAIN_TID (t.setState State.RUNNING),
           ready_queue := [],
           current_thread := MAIN_TID,
           next_tid := 1,
           total_quantums := 1,
           quantum_usecs := quantum_usecs }

/-- Entry `uthread_init` (lib.cpp 8-18) with the constructor as it is written.
The flag `throws` says whether an allocation made by `new Scheduler(...)` throws
before the main thread's `setupContext` runs; the `catch (...)` of line 14 then
returns -1 and `scheduler` stays null. -/
def uthread_init_ctx (scheduler : Option Scheduler) (quantum_usecs : Int) (throws : Bool) :
    Outcome :=
  if quantum_usecs ≤ 0 then Outcome.ret (-1) scheduler
  else if scheduler.isSome then Outcome.ret (-1) scheduler
  else if throws then Outcome.ret (-1) scheduler
  else
    match Scheduler.construct quantum_usecs with
    | none => Outcome.undefined
    | some s => Outcome.ret 0 (some s)

/-! ## The address layer -/

/-- Address of a heap block that holds a `Thread` object; a `Thread*` at the
level of addresses. -/
abbrev Addr := Nat

/-- The heap blocks of the `Thread` objects: the live objects with their
addresses, the blocks freed so far (the one freed last first), and the first
address that has never been handed out. -/
structure ThreadHeap where
  objects : List (Addr × Thread)
  freed : List Addr
  fresh : Addr
deriving DecidableEq, Repr

/-- A read through a `Thread*`: the live object at the address.  There is none
when the block has been freed and not handed out again (undefined behaviour). -/
def ThreadHeap.read (h : ThreadHeap) (p : Addr) : Option Thread :=
  List.lookup p h.objects

/-- A write through a `Thread*`: the live object at the address becomes `f` of
itself. -/
def ThreadHeap.write (h : ThreadHeap) (p : Addr) (f : Thread → Thread) : ThreadHeap :=
  { h with objects := h.objects.map (fun o => if o.1 = p then (o.1, f o.2) else o) }

/-- Allocation of a `Thread` by `std::make_unique<Thread>`: the allocator hands
out the block of that size freed last, and a new block when none is free (the
policy of the common allocators; the language leaves the choice of the block to
the allocator). -/
def ThreadHeap.alloc (h : ThreadHeap) (t : Thread) : Addr × ThreadHeap :=
  match h.freed with
  | p :: rest => (p, { h with objects := h.objects ++ [(p, t)], freed := rest })
  | [] => (h.fresh, { h with objects := h.objects ++ [(h.fresh, t)], fresh := h.fresh + 1 })

/-- Destruction of the `Thread` at `p` by its `unique_ptr`: the block is freed. -/
def ThreadHeap.free (h : ThreadHeap) (p : Addr) : ThreadHeap :=
  { h with objects := h.objects.filter (fun o => decide (o.1 ≠ p)), freed := p :: h.freed }

/-- The data members of `class Scheduler` at the level of addresses: `threads`
maps an id to the address of the object its `unique_ptr` owns, and `ready_queue`
and `current_thread` hold addresses. -/
structure PtrScheduler where
  heap : ThreadHeap
  threads : List (Int × Addr)
  ready_queue : List Addr
  current_thread : Addr
  next_tid : Int
  total_quantums : Int
  quantum_usecs : Int
deriving DecidableEq, Repr

/-- Constructor `Scheduler::Scheduler` at the level of addresses: the state that
lines 19-24 write once the main thread has been constructed.  The first block
handed out has address 1. -/
def mkPtrScheduler (quantum_usecs : Int) : PtrScheduler :=
  let a := ThreadHeap.alloc { objects := [], freed := [], fresh := 1 } (mkThread MAIN_TID none)
  { heap := a.2.write a.1 (fun t => t.setState State.RUNNING),
    threads := [(MAIN_TID, a.1)],
    ready_queue := [],
    current_thread := a.1,
    next_tid := 1,
    total_quantums := 1,
    quantum_usecs := quantum_usecs }

/-- The loop of `Scheduler::generateId` at the level of addresses, on a 32-bit
`int`. -/
def ptrGenerateIdLoop (threads : List (Int × Addr)) : Nat → Int → Option Int
  | 0, _ => none
  | fuel + 1, n =>
    if (List.lookup n threads).isSome then ptrGenerateIdLoop threads fuel (wrap32 (n + 1))
    else some n

/-- Method `Scheduler::generateId` at the level of addresses. -/
def PtrScheduler.generateId (s : PtrScheduler) : Option (Int × PtrScheduler) :=
  match ptrGenerateIdLoop s.threads (s.threads.length + 1) s.next_tid with
  | none => none
  | some n => some (n, { s with next_tid := wrap32 (n + 1) })

/-- Method `Scheduler::getCurrentTid` at the level of addresses:
`current_thread->getId()`. -/
def PtrScheduler.getCurrentTid (s : PtrScheduler) : Option Int :=
  (s.heap.read s.current_thread).map Thread.getId

/-- Step 1 of `switchContext` (lines 78-81) at the level of addresses. -/
def PtrScheduler.handleOutgoing (s : PtrScheduler) : Option PtrScheduler :=
  match s.heap.read s.current_thread with
  | none => none
  | some cur =>
    if cur.getState = State.RUNNING then
      some { s with
        heap := s.heap.write s.current_thread (fun t => t.setState State.READY),
        ready_queue := s.ready_queue ++ [s.current_thread] }
    else some s

/-- Step 2 of `switchContext` (lines 84-87) at the level of addresses. -/
def PtrScheduler.selectNext (s : PtrScheduler) : PtrScheduler :=
  match s.ready_queue with
  | [] => s
  | front :: rest => { s with current_thread := front, ready_queue := rest }

/-- Step 3 of `switchContext` (lines 89-93) at the level of addresses, on
32-bit `int`s. -/
def PtrScheduler.install (s : PtrScheduler) : Option PtrScheduler :=
  match s.heap.read s.current_thread with
  | none => none
  | some _ =>
    some { s with
      heap := s.heap.write s.current_thread
        (fun t => (t.setState State.RUNNING).incrementQuantum32),
      total_quantums := wrap32 (s.total_quantums + 1) }

/-- Method `Scheduler::switchContext` at the level of addresses. -/
def PtrScheduler.switchContext (s : PtrScheduler) : Option PtrScheduler :=
  match s.handleOutgoing with
  | none => none
  | some s1 => s1.selectNext.install

/-- Handler `Scheduler::timerHandler` at the level of addresses. -/
def PtrScheduler.timerHandler (s : PtrScheduler) : Option PtrScheduler :=
  match s.heap.read s.current_thread with
  | none => none
  | some _ => s.switchContext

/-- Method `Scheduler::spawn` at the level of addresses: `make_unique` allocates
the new `Thread`, `threads[tid]` takes ownership (the id is no key, by the loop
of `generateId`), and the address is pushed at the back of the queue. -/
def PtrScheduler.spawn (s : PtrScheduler) (entryPoint : EntryPoint) :
    Option (Int × PtrScheduler) :=
  match s.generateId with
  | none => none
  | some (tid, s1) =>
    let a := s1.heap.alloc (mkThread tid entryPoint)
    some (tid, { s1 with
      heap := a.2,
      threads := s1.threads ++ [(tid, a.1)],
      ready_queue := s1.ready_queue ++ [a.1] })

/-- Method `Scheduler::terminate` at the level of addresses: `threads.erase(tid)`
removes the entry and destroys the object it owns; nothing else is touched. -/
def PtrScheduler.terminate (s : PtrScheduler) (tid : Int) : Option (Int × PtrScheduler) :=
  match List.lookup tid s.threads with
  | none => some (-1, s)
  | some p =>
    let s1 := { s with
      threads := s.threads.filter (fun e => decide (e.1 ≠ tid)),
      heap := s.heap.free p }
    match s1.getCurrentTid with
    | none => none
    | some cur =>
      if tid = cur then
        match s1.timerHandler with
        | none => none
        | some s2 => some (0, s2)
      else some (0, s1)

/-- One event on an initialised library at the level of addresses: the return
value and the new state; no result for undefined behaviour and for the exit of
the process (`terminate(0)`). -/
def PtrScheduler.apiCall (s : PtrScheduler) : Op → Option (Int × PtrScheduler)
  | Op.spawn none => some (-1, s)
  | Op.spawn (some e) => s.spawn (some e)
  | Op.terminate tid => if tid = 0 then none else s.terminate tid
  | Op.block _ => some (0, s)
  | Op.resume _ => some (0, s)
  | Op.sleep _ => some (0, s)
  | Op.timer => s.timerHandler.map (fun s1 => (0, s1))

/-- A sequence of events at the level of addresses. -/
def PtrScheduler.exec (s : PtrScheduler) : List Op → Option PtrScheduler
  | [] => some s
  | op :: ops =>
    match s.apiCall op with
    | none => none
    | some (_, s1) => s1.exec ops

/-- Scenario state at the level of addresses: the scheduler after
`init(100000)`, `spawn`, `spawn`, `terminate(1)` and `spawn` (entries 7, 8, 9).
Thread 3 has been given the block at address 2 that the destroyed thread 1 had. -/
def reusedBlock : PtrScheduler :=
  { heap :=
      { objects := [(1, mainThread), (3, mkThread 2 (some 8)), (2, mkThread 3 (some 9))],
        freed := [],
        fresh := 4 },
    threads := [(0, 1), (2, 3), (3, 2)],
    ready_queue := [2, 3, 2],
    current_thread := 1,
    next_tid := 4,
    total_quantums := 1,
    quantum_usecs := 100000 }

/-! ## Lemmas on the map and on id generation -/

theorem modifyThread_cons (a : Int) (t : Thread) (m : ThreadMap) (k : Int)
    (f : Thread → Thread) :
    modifyThread ((a, t) :: m) k f
      = (if a = k then (a, f t) else (a, t)) :: modifyThread m k f := rfl

theorem eraseThread_cons (a : Int) (t : Thread) (m : ThreadMap) (k : Int) :
    eraseThread ((a, t) :: m) k
      = if a = k then eraseThread m k else (a, t) :: eraseThread m k := by
  by_cases h : a = k <;> simp [eraseThread, List.filter_cons, h]

theorem findThread_modifyThread (m : ThreadMap) (k tid : Int) (f : Thread → Thread) :
    findThread (modifyThread m k f) tid
      = if k = tid then (findThread m tid).map f else findThread m tid := by
  induction m with
  | nil => simp [modifyThread, findThread]
  | cons p m ih =>
    obtain ⟨a, t⟩ := p
    rw [modifyThread_cons]
    by_cases hak : a = k
    · rw [if_pos hak]
      subst hak
      by_cases hat : a = tid
      · subst hat; simp [findThread]
      · simp [findThread, hat, ih]
    · rw [if_neg hak]
      by_cases hat : a = tid
      · subst hat
        have hka : ¬ k = a := fun h => hak h.symm
        simp [findThread, hka]
      · simp [findThread, hat, ih]

theorem findThread_eraseThread (m : ThreadMap) (k tid : Int) :
    findThread (eraseThread m k) tid = if tid = k then none else findThread m tid := by
  induction m with
  | nil => simp [eraseThread, findThread]
  | cons p m ih =>
    obtain ⟨a, t⟩ := p
    rw [eraseThread_cons]
    by_cases hak : a = k
    · subst hak
      by_cases hat : a = tid
      · subst hat; simp [ih]
      · have hta : ¬ tid = a := fun h => hat h.symm
        simp [findThread, hat, hta, ih]
    · by_cases hat : a = tid
      · subst hat
        simp [findThread, hak]
      · simp [findThread, hak, hat, ih]

theorem findThread_append (m m2 : ThreadMap) (tid : Int) :
    findThread (m ++ m2) tid = (findThread m tid).orElse (fun _ => findThread m2 tid) := by
  induction m with
  | nil => simp [findThread]
  | cons p m ih =>
    obtain ⟨a, t⟩ := p
    by_cases hat : a = tid
    · simp [findThread, hat]
    · simp [findThread, hat, ih]

theorem assignThread_fresh (m : ThreadMap) (tid : Int) (t : Thread)
    (h : findThread m tid = none) : assignThread m tid t = m ++ [(tid, t)] := by
  induction m with
  | nil => simp [assignThread]
  | cons p m ih =>
    obtain ⟨a, u⟩ := p
    by_cases hat : a = tid
    · simp [findThread, hat] at h
    · simp only [findThread, hat, if_false] at h
      simp [assignThread, hat, ih h]

theorem keysFrom_succ_le (m : ThreadMap) (n : Int) : keysFrom m (n + 1) ≤ keysFrom m n := by
  induction m with
  | nil => simp [keysFrom]
  | cons p m ih =>
    obtain ⟨a, t⟩ := p
    simp only [keysFrom, List.filter_cons] at ih ⊢
    by_cases h1 : n + 1 ≤ a
    · have h0 : n ≤ a := by omega
      simp [h1, h0, ih]
    · by_cases h0 : n ≤ a
      · simp [h1, h0]; omega
      · simp [h1, h0, ih]

theorem keysFrom_succ_lt (m : ThreadMap) (n : Int) (h : (findThread m n).isSome) :
    keysFrom m (n + 1) < keysFrom m n := by
  induction m with
  | nil => simp [findThread] at h
  | cons p m ih =>
    obtain ⟨a, t⟩ := p
    by_cases han : a = n
    · subst han
      have := keysFrom_succ_le m a
      simp only [keysFrom, List.filter_cons] at this ⊢
      simp; omega
    · simp only [findThread, han, if_false] at h
      have := ih h
      simp only [keysFrom, List.filter_cons] at this ⊢
      by_cases h1 : n + 1 ≤ a
      · have h0 : n ≤ a := by omega
        simp [h1, h0, this]
      · have h0 : ¬ n ≤ a := by omega
        simp [h1, h0, this]

theorem keysFrom_le_length (m : ThreadMap) (n : Int) : keysFrom m n ≤ m.length := by
  simp only [keysFrom]; exact List.length_filter_le _ _

theorem generateIdLoop_spec (m : ThreadMap) :
    ∀ (fuel : Nat) (n : Int), keysFrom m n < fuel →
      ∃ r, generateIdLoop m fuel n = some r ∧ n ≤ r ∧ findThread m r = none := by
  intro fuel
  induction fuel with
  | zero => intro n h; omega
  | succ fuel ih =>
    intro n h
    by_cases hk : (findThread m n).isSome
    · have hlt := keysFrom_succ_lt m n hk
      obtain ⟨r, hr, hle, hfree⟩ := ih (n + 1) (by omega)
      exact ⟨r, by simp [generateIdLoop, hk, hr], by omega, hfree⟩
    · refine ⟨n, by simp [generateIdLoop, hk], le_refl _, ?_⟩
      simpa using hk

theorem generateId_spec (s : Scheduler) :
    ∃ r, s.generateId = some (r, { s with next_tid := r + 1 })
      ∧ s.next_tid ≤ r ∧ findThread s.threads r = none := by
  obtain ⟨r, hr, hle, hfree⟩ :=
    generateIdLoop_spec s.threads (s.threads.length + 1) s.next_tid
      (Nat.lt_succ_of_le (keysFrom_le_length _ _))
  exact ⟨r, by simp [Scheduler.generateId, hr], hle, hfree⟩

theorem spawn_spec (s : Scheduler) (e : EntryPoint) :
    ∃ r, s.spawn e = some (r,
        { s with threads := s.threads ++ [(r, mkThread r e)],
                 ready_queue := s.ready_queue ++ [r],
                 next_tid := r + 1 })
      ∧ s.next_tid ≤ r ∧ findThread s.threads r = none := by
  obtain ⟨r, hr, hle, hfree⟩ := generateId_spec s
  refine ⟨r, ?_, hle, hfree⟩
  simp [Scheduler.spawn, hr, assignThread_fresh _ _ _ hfree]

/-! ## Id facts of the reachable states -/

theorem isSome_findThread_modifyThread (m : ThreadMap) (k tid : Int) (f : Thread → Thread) :
    (findThread (modifyThread m k f) tid).isSome = (findThread m tid).isSome := by
  rw [findThread_modifyThread]
  by_cases h : k = tid <;> simp [h]

theorem install_shape (s s1 : Scheduler) (h : s.install = some s1) :
    s1.next_tid = s.next_tid ∧ s1.ready_queue = s.ready_queue
      ∧ s1.current_thread = s.current_thread
      ∧ (∀ k, (findThread s1.threads k).isSome = (findThread s.threads k).isSome) := by
  unfold Scheduler.install at h
  split at h
  · cases h
  · cases h
    exact ⟨rfl, rfl, rfl, fun k => by simp only [isSome_findThread_modifyThread]⟩

theorem handleOutgoing_shape (s s1 : Scheduler) (h : s.handleOutgoing = some s1) :
    s1.next_tid = s.next_tid ∧ s1.current_thread = s.current_thread
      ∧ (s1.ready_queue = s.ready_queue ++ [s.current_thread] ∨ s1.ready_queue = s.ready_queue)
      ∧ (∀ k, (findThread s1.threads k).isSome = (findThread s.threads k).isSome) := by
  unfold Scheduler.handleOutgoing at h
  split at h
  · cases h
  · split at h
    · cases h
      exact ⟨rfl, rfl, Or.inl rfl, fun k => by simp only [isSome_findThread_modifyThread]⟩
    · cases h
      exact ⟨rfl, rfl, Or.inr rfl, fun k => rfl⟩

theorem selectNext_shape (s : Scheduler) :
    s.selectNext.next_tid = s.next_tid ∧ s.selectNext.threads = s.threads
      ∧ ((s.ready_queue = [] ∧ s.selectNext.current_thread = s.current_thread
            ∧ s.selectNext.ready_queue = [])
          ∨ (s.ready_queue = s.selectNext.current_thread :: s.selectNext.ready_queue)) := by
  unfold Scheduler.selectNext
  split
  · rename_i h; exact ⟨rfl, rfl, Or.inl ⟨h, rfl, h⟩⟩
  · rename_i h; exact ⟨rfl, rfl, Or.inr h⟩

theorem switchContext_idInv (s s1 : Scheduler) (hi : IdInv s) (h : s.switchContext = some s1) :
    IdInv s1 := by
  unfold Scheduler.switchContext at h
  split at h
  · cases h
  · rename_i s0 h0
    obtain ⟨hn0, hc0, hq0, hk0⟩ := handleOutgoing_shape s s0 h0
    obtain ⟨hn1, hq1, hc1, hk1⟩ := install_shape _ _ h
    obtain ⟨hn2, ht2, hsel⟩ := selectNext_shape s0
    have hnd0 : s0.ready_queue.Nodup := by
      rcases hq0 with hq | hq
      · rw [hq]
        exact List.Nodup.append hi.queue_nodup (List.nodup_singleton _)
          (by simpa using hi.current_not_queued)
      · rw [hq]; exact hi.queue_nodup
    have hlt0 : ∀ x ∈ s0.ready_queue, x < s.next_tid := by
      intro x hx
      rcases hq0 with hq | hq
      · rw [hq] at hx
        rcases List.mem_append.1 hx with hx | hx
        · exact hi.queue_lt x hx
        · simp at hx; rw [hx]; exact hi.current_lt
      · rw [hq] at hx; exact hi.queue_lt x hx
    have hkeys : ∀ k, (findThread s1.threads k).isSome → k < s1.next_tid := by
      intro k hk
      rw [hk1, ht2, hk0] at hk
      rw [hn1, hn2, hn0]
      exact hi.keys_lt k hk
    rcases hsel with ⟨he, hcur, hqe⟩ | hcons
    · refine ⟨by rw [hq1, hqe]; exact List.nodup_nil, ?_, hkeys, ?_, ?_, ?_⟩
      · intro x hx; rw [hq1, hqe] at hx; simp at hx
      · rw [hq1, hqe]; simp
      · rw [hc1, hcur, hc0, hn1, hn2, hn0]; exact hi.current_lt
      · rw [hn1, hn2, hn0]; exact hi.next_pos
    · rw [hcons] at hnd0 hlt0
      have hnd := List.nodup_cons.1 hnd0
      refine ⟨by rw [hq1]; exact hnd.2, ?_, hkeys, ?_, ?_, ?_⟩
      · intro x hx; rw [hq1] at hx; rw [hn1, hn2, hn0]
        exact hlt0 x (List.mem_cons_of_mem _ hx)
      · rw [hq1, hc1]; exact hnd.1
      · rw [hc1, hn1, hn2, hn0]; exact hlt0 _ (List.mem_cons_self _ _)
      · rw [hn1, hn2, hn0]; exact hi.next_pos

theorem timerHandler_idInv (s s1 : Scheduler) (hi : IdInv s) (h : s.timerHandler = some s1) :
    IdInv s1 := by
  unfold Scheduler.timerHandler at h
  split at h
  · cases h
  · exact switchContext_idInv s s1 hi h

theorem spawn_idInv (s s1 : Scheduler) (e : EntryPoint) (r : Int) (hi : IdInv s)
    (h : s.spawn e = some (r, s1)) : IdInv s1 := by
  obtain ⟨r0, hr, hle, hfree⟩ := spawn_spec s e
  rw [hr] at h
  cases h
  have hq := hi.queue_lt
  have hc := hi.current_lt
  have hp := hi.next_pos
  refine ⟨?_, ?_, ?_, ?_, ?_, ?_⟩
  · refine List.Nodup.append hi.queue_nodup (List.nodup_singleton _) ?_
    simp only [List.disjoint_singleton]
    intro hmem
    have := hq _ hmem
    omega
  · intro x hx
    rcases List.mem_append.1 hx with hx | hx
    · have := hq x hx
      show x < r + 1
      omega
    · simp at hx; show x < r + 1; omega
  · intro k hk
    show k < r + 1
    simp only [findThread_append] at hk
    cases hf : findThread s.threads k with
    | some t =>
      have := hi.keys_lt k (by simp [hf])
      omega
    | none =>
      simp only [hf, Option.orElse] at hk
      by_cases hrk : r = k
      · omega
      · simp [findThread, hrk] at hk
  · show s.current_thread ∉ s.ready_queue ++ [r]
    simp only [List.mem_append, List.mem_singleton, not_or]
    exact ⟨hi.current_not_queued, by omega⟩
  · show s.current_thread < r + 1
    omega
  · show 1 ≤ r + 1
    omega

theorem terminate_idInv (s s1 : Scheduler) (tid r : Int) (hi : IdInv s)
    (h : s.terminate tid = some (r, s1)) : IdInv s1 := by
  have herase : IdInv { s with threads := eraseThread s.threads tid } := by
    refine ⟨hi.queue_nodup, hi.queue_lt, ?_, hi.current_not_queued, hi.current_lt, hi.next_pos⟩
    intro k hk
    simp only [findThread_eraseThread] at hk
    by_cases hkt : k = tid
    · simp [hkt] at hk
    · simp only [hkt, if_false] at hk
      exact hi.keys_lt k hk
  unfold Scheduler.terminate at h
  split at h
  · cases h; exact hi
  · simp only at h
    split at h
    · cases h
    · split at h
      · split at h
        · cases h
        · rename_i s2 h2
          cases h
          exact timerHandler_idInv _ _ herase h2
      · cases h
        exact herase

theorem apiCall_idInv (s s1 : Scheduler) (op : Op) (v : Int) (hi : IdInv s)
    (h : apiCall (some s) op = Outcome.ret v (some s1)) : IdInv s1 := by
  cases op with
  | spawn e =>
    cases e with
    | none =>
      simp only [apiCall, uthread_spawn] at h
      cases h; exact hi
    | some a =>
      simp only [apiCall, uthread_spawn] at h
      cases hs : s.spawn (some a) with
      | none => simp [hs, forward] at h
      | some p =>
        obtain ⟨r, s2⟩ := p
        simp only [hs, forward] at h
        cases h
        exact spawn_idInv s s1 _ _ hi hs
  | terminate tid =>
    simp only [apiCall, uthread_terminate] at h
    split at h
    · cases h
    · cases hs : s.terminate tid with
      | none => simp [hs, forward] at h
      | some p =>
        obtain ⟨r, s2⟩ := p
        simp only [hs, forward] at h
        cases h
        exact terminate_idInv s s1 _ _ hi hs
  | block tid =>
    simp only [apiCall, uthread_block, Scheduler.block, forward] at h
    cases h; exact hi
  | resume tid =>
    simp only [apiCall, uthread_resume, Scheduler.resume, forward] at h
    cases h; exact hi
  | sleep q =>
    simp only [apiCall, uthread_sleep, Scheduler.sleep, forward] at h
    cases h; exact hi
  | timer =>
    simp only [apiCall] at h
    cases hs : s.timerHandler with
    | none => simp [hs, forward] at h
    | some s2 =>
      simp only [hs, forward, Option.map] at h
      cases h
      exact timerHandler_idInv s s1 hi hs

theorem mkScheduler_idInv (q : Int) : IdInv (mkScheduler q) := by
  refine ⟨List.nodup_nil, by intro x hx; simp [mkScheduler] at hx, ?_, by simp [mkScheduler],
    by simp [mkScheduler, MAIN_TID], by simp [mkScheduler]⟩
  intro k hk
  by_cases h0 : (0 : Int) = k
  · subst h0; simp [mkScheduler]
  · simp [mkScheduler, assignThread, findThread, MAIN_TID, h0] at hk

theorem uthread_init_some (q : Int) (s : Scheduler)
    (h : uthread_init none q = Outcome.ret 0 (some s)) : 0 < q ∧ s = mkScheduler q := by
  unfold uthread_init at h
  split at h
  · cases h
  · simp only [Option.isSome_none, Bool.false_eq_true, if_false] at h
    cases h
    exact ⟨by omega, rfl⟩

theorem Reachable.idInv {s : Scheduler} (h : Reachable s) : IdInv s := by
  induction h with
  | init q s h0 =>
    rw [(uthread_init_some q s h0).2]; exact mkScheduler_idInv q
  | step s op v s1 _ hstep ih => exact apiCall_idInv s s1 op v ih hstep

/-! ## Runs -/

theorem reachable_mkScheduler (q : Int) (hq : 0 < q) : Reachable (mkScheduler q) := by
  refine Reachable.init q _ ?_
  have h : ¬ q ≤ 0 := by omega
  simp [uthread_init, h]

theorem reachable_exec (ops : List Op) :
    ∀ (s s1 : Scheduler), Reachable s → exec s ops = some s1 → Reachable s1 := by
  induction ops with
  | nil => intro s s1 hs h; simp only [exec] at h; cases h; exact hs
  | cons op ops ih =>
    intro s s1 hs h
    simp only [exec] at h
    split at h
    · rename_i v s2 hcall
      exact ih s2 s1 (Reachable.step s op v s2 hs hcall) h
    · cases h

/-! ## Ids along a run -/

theorem switchContext_next_tid (s s1 : Scheduler) (h : s.switchContext = some s1) :
    s1.next_tid = s.next_tid := by
  unfold Scheduler.switchContext at h
  split at h
  · cases h
  · rename_i s0 h0
    rw [(install_shape _ _ h).1, (selectNext_shape s0).1, (handleOutgoing_shape s s0 h0).1]

theorem timerHandler_next_tid (s s1 : Scheduler) (h : s.timerHandler = some s1) :
    s1.next_tid = s.next_tid := by
  unfold Scheduler.timerHandler at h
  split at h
  · cases h
  · exact switchContext_next_tid s s1 h

theorem terminate_next_tid (s s1 : Scheduler) (tid r : Int)
    (h : s.terminate tid = some (r, s1)) : s1.next_tid = s.next_tid := by
  unfold Scheduler.terminate at h
  split at h
  · cases h; rfl
  · simp only at h
    split at h
    · cases h
    · split at h
      · split at h
        · cases h
        · rename_i s2 h2
          cases h
          exact timerHandler_next_tid
            { s with threads := eraseThread s.threads tid } _ h2
      · cases h; rfl

theorem terminate_zero_live (s s1 : Scheduler) (tid : Int)
    (h : s.terminate tid = some (0, s1)) : (findThread s.threads tid).isSome := by
  unfold Scheduler.terminate at h
  split at h
  · cases h
  · rename_i t ht; simp [ht]

theorem apiCall_next_tid_le (s s1 : Scheduler) (op : Op) (v : Int)
    (h : apiCall (some s) op = Outcome.ret v (some s1)) : s.next_tid ≤ s1.next_tid := by
  cases op with
  | spawn e =>
    cases e with
    | none =>
      simp only [apiCall, uthread_spawn] at h
      cases h; exact le_refl _
    | some a =>
      obtain ⟨r, hr, hle, _⟩ := spawn_spec s (some a)
      simp only [apiCall, uthread_spawn, hr, forward] at h
      cases h
      show s.next_tid ≤ v + 1
      omega
  | terminate tid =>
    simp only [apiCall, uthread_terminate] at h
    split at h
    · cases h
    · cases hs : s.terminate tid with
      | none => simp [hs, forward] at h
      | some p =>
        obtain ⟨r, s2⟩ := p
        simp only [hs, forward] at h
        cases h
        exact le_of_eq (terminate_next_tid s s1 _ _ hs).symm
  | block tid =>
    simp only [apiCall, uthread_block, Scheduler.block, forward] at h
    cases h; exact le_refl _
  | resume tid =>
    simp only [apiCall, uthread_resume, Scheduler.resume, forward] at h
    cases h; exact le_refl _
  | sleep q =>
    simp only [apiCall, uthread_sleep, Scheduler.sleep, forward] at h
    cases h; exact le_refl _
  | timer =>
    simp only [apiCall] at h
    cases hs : s.timerHandler with
    | none => simp [hs, forward] at h
    | some s2 =>
      simp only [hs, forward, Option.map] at h
      cases h
      exact le_of_eq (timerHandler_next_tid s s1 hs).symm

theorem apiCall_spawn_id (s s1 : Scheduler) (a : Nat) (v : Int)
    (h : apiCall (some s) (Op.spawn (some a)) = Outcome.ret v (some s1)) :
    s.next_tid ≤ v ∧ s1.next_tid = v + 1 := by
  obtain ⟨r, hr, hle, _⟩ := spawn_spec s (some a)
  simp only [apiCall, uthread_spawn, hr, forward] at h
  cases h
  exact ⟨hle, rfl⟩

theorem apiCall_terminate_zero (s s1 : Scheduler) (tid : Int)
    (h : apiCall (some s) (Op.terminate tid) = Outcome.ret 0 (some s1)) :
    (findThread s.threads tid).isSome := by
  simp only [apiCall, uthread_terminate] at h
  split at h
  · cases h
  · cases hs : s.terminate tid with
    | none => simp [hs, forward] at h
    | some p =>
      obtain ⟨r, s2⟩ := p
      simp only [hs, forward] at h
      cases h
      exact terminate_zero_live s s1 tid hs

theorem trace_spawn_ge (ops : List Op) :
    ∀ (s : Scheduler) (y : Op × Int) (a : Nat), y ∈ trace s ops → y.1 = Op.spawn (some a) →
      s.next_tid ≤ y.2 := by
  induction ops with
  | nil => intro s y a hy; simp [trace] at hy
  | cons op ops ih =>
    intro s y a hy hya
    simp only [trace] at hy
    split at hy
    · rename_i v s1 hcall
      rcases List.mem_cons.1 hy with hy | hy
      · subst hy
        simp only at hya
        subst hya
        exact (apiCall_spawn_id s s1 a v hcall).1
      · have := ih s1 y a hy hya
        have := apiCall_next_tid_le s s1 op v hcall
        omega
    · simp at hy

theorem trace_idOrder (ops : List Op) :
    ∀ (s : Scheduler), IdInv s → (trace s ops).Pairwise IdOrder := by
  induction ops with
  | nil => intro s _; simp [trace]
  | cons op ops ih =>
    intro s hi
    simp only [trace]
    split
    · rename_i v s1 hcall
      refine List.Pairwise.cons ?_ (ih s1 (apiCall_idInv s s1 op v hi hcall))
      intro y hy
      obtain ⟨yop, yv⟩ := y
      cases yop with
      | spawn ye =>
        cases ye with
        | none => simp [IdOrder]
        | some ya =>
          have hge := trace_spawn_ge ops s1 (Op.spawn (some ya), yv) ya hy rfl
          simp only at hge
          cases op with
          | spawn e =>
            cases e with
            | none => simp [IdOrder]
            | some a =>
              have := (apiCall_spawn_id s s1 a v hcall).2
              simp only [IdOrder]
              omega
          | terminate tid =>
            simp only [IdOrder]
            intro hv
            subst hv
            have hlive := apiCall_terminate_zero s s1 tid hcall
            have := hi.keys_lt tid hlive
            have := apiCall_next_tid_le s s1 _ _ hcall
            omega
          | block tid => simp [IdOrder]
          | resume tid => simp [IdOrder]
          | sleep q => simp [IdOrder]
          | timer => simp [IdOrder]
      | terminate tid => simp [IdOrder]
      | block tid => simp [IdOrder]
      | resume tid => simp [IdOrder]
      | sleep q => simp [IdOrder]
      | timer => simp [IdOrder]
    · exact List.Pairwise.nil

/-! ## Election -/

theorem timerHandler_running (s : Scheduler) (tc : Thread) (h : Int) (rest : List Int)
    (hc : findThread s.threads s.current_thread = some tc) (hr : tc.state = State.RUNNING)
    (hq : s.ready_queue ++ [s.current_thread] = h :: rest)
    (hh : (findThread s.threads h).isSome) :
    s.timerHandler = some
      { s with
        threads := modifyThread
          (modifyThread s.threads s.current_thread (fun t => t.setState State.READY)) h
          (fun t => (t.setState State.RUNNING).incrementQuantum),
        ready_queue := rest,
        current_thread := h,
        total_quantums := s.total_quantums + 1 } := by
  have hh2 : (findThread (modifyThread s.threads s.current_thread
      (fun t => t.setState State.READY)) h).isSome := by
    rw [isSome_findThread_modifyThread]; exact hh
  obtain ⟨th, hth⟩ := Option.isSome_iff_exists.1 hh2
  simp only [Scheduler.timerHandler, hc, Scheduler.switchContext, Scheduler.handleOutgoing,
    Thread.getState, hr, if_true, Scheduler.selectNext, hq, Scheduler.install, hth]

theorem exec_append (a b : List Op) :
    ∀ s : Scheduler, exec s (a ++ b) = (exec s a).bind (fun s1 => exec s1 b) := by
  induction a with
  | nil => intro s; simp [exec]
  | cons op a ih =>
    intro s
    simp only [List.cons_append, exec]
    split
    · rename_i v s1 hcall
      exact ih s1
    · rfl

theorem trace_append (a b : List Op) :
    ∀ s s1 : Scheduler, exec s a = some s1 → trace s (a ++ b) = trace s a ++ trace s1 b := by
  induction a with
  | nil => intro s s1 h; simp only [exec] at h; cases h; simp [trace]
  | cons op a ih =>
    intro s s1 h
    simp only [exec] at h
    simp only [List.cons_append, trace]
    split at h
    · rename_i v s2 hcall
      exact congrArg (fun l => (op, v) :: l) (ih s2 s1 h)
    · cases h

theorem spawn_at_cursor (s : Scheduler) (e : EntryPoint)
    (hfree : findThread s.threads s.next_tid = none) :
    s.spawn e = some (s.next_tid,
        { s with threads := s.threads ++ [(s.next_tid, mkThread s.next_tid e)],
                 ready_queue := s.ready_queue ++ [s.next_tid],
                 next_tid := s.next_tid + 1 }) := by
  simp [Scheduler.spawn, Scheduler.generateId, generateIdLoop, hfree,
    assignThread_fresh _ _ _ hfree]

theorem findThread_none_of_keys_lt (s : Scheduler)
    (h : ∀ k : Int, (findThread s.threads k).isSome → k < s.next_tid) :
    findThread s.threads s.next_tid = none := by
  cases hf : findThread s.threads s.next_tid with
  | none => rfl
  | some t =>
    have := h s.next_tid (by simp [hf])
    omega

theorem mkScheduler_spawnedUpTo (q : Int) : SpawnedUpTo 0 (mkScheduler q) := by
  refine ⟨rfl, rfl, rfl, ?_, (mkScheduler_idInv q).keys_lt, rfl⟩
  intro i hi
  have : i = 0 := by omega
  subst this
  rfl

theorem spawn_spawnedUpTo (j : Nat) (s : Scheduler) (e : Nat) (h : SpawnedUpTo j s) :
    ∃ s1, apiCall (some s) (Op.spawn (some e)) = Outcome.ret ((j : Int) + 1) (some s1)
      ∧ SpawnedUpTo (j + 1) s1 := by
  have hfree := findThread_none_of_keys_lt s h.keys_lt
  have hsp := spawn_at_cursor s (some e) hfree
  rw [h.cursor] at hsp
  refine ⟨{ s with threads := s.threads ++ [((j : Int) + 1, mkThread ((j : Int) + 1) (some e))],
                    ready_queue := s.ready_queue ++ [(j : Int) + 1],
                    next_tid := (j : Int) + 1 + 1 },
    by simp only [apiCall, uthread_spawn, hsp, forward], ?_⟩
  refine ⟨h.current, by simp, ?_, ?_, ?_, ?_⟩
  · show s.ready_queue ++ [(j : Int) + 1] = _
    rw [h.queue, List.range_succ, List.map_append]
    simp
  · intro i hi
    show (findThread (s.threads ++ _) (i : Int)).isSome
    rw [findThread_append]
    by_cases hij : i ≤ j
    · obtain ⟨t, ht⟩ := Option.isSome_iff_exists.1 (h.live i hij)
      simp [ht]
    · have : i = j + 1 := by omega
      subst this
      cases hf : findThread s.threads ((j + 1 : Nat) : Int) <;> simp [findThread]
  · intro k hk
    show k < (j : Int) + 1 + 1
    have hk' : (findThread (s.threads ++ [((j : Int) + 1, mkThread ((j : Int) + 1) (some e))]) k).isSome := hk
    rw [findThread_append] at hk'
    cases hf : findThread s.threads k with
    | some t =>
      have := h.keys_lt k (by simp [hf])
      have := h.cursor
      omega
    | none =>
      simp only [hf, Option.orElse] at hk'
      by_cases hrk : (j : Int) + 1 = k
      · omega
      · simp [findThread, hrk] at hk'
  · show (findThread (s.threads ++ _) 0).map Thread.getState = _
    rw [findThread_append]
    have := h.running
    cases hf : findThread s.threads 0 with
    | none => simp [hf] at this
    | some t => simpa [hf] using this

theorem spawns_spawnedUpTo (es : List Nat) :
    ∀ (j : Nat) (s : Scheduler), SpawnedUpTo j s →
      ∃ s1, exec s (es.map (fun e => Op.spawn (some e))) = some s1
        ∧ (trace s (es.map (fun e => Op.spawn (some e)))).map Prod.snd
            = (List.range es.length).map (fun (i : Nat) => (j : Int) + 1 + (i : Int))
        ∧ SpawnedUpTo (j + es.length) s1 := by
  induction es with
  | nil => intro j s h; exact ⟨s, rfl, rfl, h⟩
  | cons e es ih =>
    intro j s h
    obtain ⟨s1, hcall, h1⟩ := spawn_spawnedUpTo j s e h
    obtain ⟨s2, hex, htr, h2⟩ := ih (j + 1) s1 h1
    refine ⟨s2, by simp only [List.map_cons, exec, hcall, hex], ?_, ?_⟩
    · simp only [List.map_cons, trace, hcall, htr, List.length_cons, List.range_succ_eq_map]
      simp only [List.map_cons, List.map_map]
      congr 1
      apply List.map_congr_left
      intro i _
      simp only [Function.comp]
      push_cast
      ring
    · have : j + (e :: es).length = j + 1 + es.length := by simp; omega
      rw [this]; exact h2

theorem apiCall_timer (s s1 : Scheduler) (h : s.timerHandler = some s1) :
    apiCall (some s) Op.timer = Outcome.ret 0 (some s1) := by
  simp only [apiCall, h, Option.map, forward]

theorem elected_running (m : ThreadMap) (c h : Int) (hh : (findThread m h).isSome) :
    (findThread (modifyThread (modifyThread m c (fun t => t.setState State.READY)) h
        (fun t => (t.setState State.RUNNING).incrementQuantum)) h).map Thread.getState
      = some State.RUNNING := by
  obtain ⟨th, hth⟩ := Option.isSome_iff_exists.1 hh
  by_cases hsame : c = h
  · simp [findThread_modifyThread, hsame, hth, Thread.getState, Thread.setState,
      Thread.incrementQuantum]
  · simp [findThread_modifyThread, hsame, hth, Thread.getState, Thread.setState,
      Thread.incrementQuantum]

theorem spawnedUpTo_roundRobin (n : Nat) (s : Scheduler) (h : SpawnedUpTo n s) :
    RoundRobin n 0 s := by
  refine ⟨by rw [h.current]; simp, ?_, h.live, by rw [h.current]; exact h.running⟩
  rw [h.queue]
  apply List.map_congr_left
  intro i hi
  have hlt : i < n := List.mem_range.1 hi
  have : (0 + 1 + i) % (n + 1) = i + 1 := by
    rw [Nat.mod_eq_of_lt (by omega)]; omega
  rw [this]; push_cast; ring

theorem rotate_queue (n k : Nat) :
    (List.range n).map (fun (i : Nat) => (((k + 1 + i) % (n + 1) : Nat) : Int))
        ++ [((k % (n + 1) : Nat) : Int)]
      = (((k + 1) % (n + 1) : Nat) : Int)
          :: (List.range n).map (fun (i : Nat) => (((k + 1 + 1 + i) % (n + 1) : Nat) : Int)) := by
  have e1 : k % (n + 1) = (k + 1 + n) % (n + 1) := by
    rw [show k + 1 + n = k + (n + 1) by ring, Nat.add_mod_right]
  have e2 : (List.range n).map (fun (i : Nat) => (((k + 1 + i) % (n + 1) : Nat) : Int))
        ++ [((k % (n + 1) : Nat) : Int)]
      = (List.range (n + 1)).map (fun (i : Nat) => (((k + 1 + i) % (n + 1) : Nat) : Int)) := by
    rw [List.range_succ, List.map_append, e1]
    rfl
  rw [e2, List.range_succ_eq_map, List.map_cons, List.map_map]
  congr 1
  apply List.map_congr_left
  intro i _
  simp only [Function.comp]
  rw [show k + 1 + Nat.succ i = k + 1 + 1 + i by omega]

theorem timer_roundRobin (n k : Nat) (s : Scheduler) (h : RoundRobin n k s) :
    ∃ s1, apiCall (some s) Op.timer = Outcome.ret 0 (some s1) ∧ RoundRobin n (k + 1) s1 := by
  have hrun := h.running
  cases hc : findThread s.threads s.current_thread with
  | none => simp [hc] at hrun
  | some tc =>
    have hr : tc.state = State.RUNNING := by simpa [hc, Thread.getState] using hrun
    have hq : s.ready_queue ++ [s.current_thread]
        = (((k + 1) % (n + 1) : Nat) : Int)
          :: (List.range n).map (fun (i : Nat) => (((k + 1 + 1 + i) % (n + 1) : Nat) : Int)) := by
      rw [h.queue, h.current]; exact rotate_queue n k
    have hlive : (findThread s.threads (((k + 1) % (n + 1) : Nat) : Int)).isSome :=
      h.live _ (Nat.le_of_lt_succ (Nat.mod_lt _ (Nat.succ_pos n)))
    have ht := timerHandler_running s tc _ _ hc hr hq hlive
    refine ⟨_, apiCall_timer _ _ ht, ?_⟩
    refine ⟨rfl, rfl, ?_, ?_⟩
    · intro i hi
      simp only [isSome_findThread_modifyThread]
      exact h.live i hi
    · exact elected_running s.threads s.current_thread _ hlive

theorem timers_roundRobin (n j : Nat) :
    ∀ (k : Nat) (s : Scheduler), RoundRobin n k s →
      ∃ s1, exec s (List.replicate j Op.timer) = some s1 ∧ RoundRobin n (k + j) s1 := by
  induction j with
  | zero => intro k s h; exact ⟨s, rfl, h⟩
  | succ j ih =>
    intro k s h
    obtain ⟨s1, hcall, h1⟩ := timer_roundRobin n k s h
    obtain ⟨s2, hex, h2⟩ := ih (k + 1) s1 h1
    refine ⟨s2, by simp only [List.replicate_succ, exec, hcall, hex], ?_⟩
    rw [show k + (j + 1) = k + 1 + j by omega]; exact h2

theorem Reachable.current_ne_head {s : Scheduler} (h : Reachable s) (x : Int) (rest : List Int)
    (hq : s.ready_queue = x :: rest) : x ≠ s.current_thread := by
  intro hx
  have := h.idInv.current_not_queued
  rw [hq, ← hx] at this
  exact this (List.mem_cons_self _ _)

/-! ## Round robin over two spawned threads -/

theorem rrState_timer (q : Int) (f g k : Nat) :
    (rrState q f g k).timerHandler = some (rrState q f g (k + 1)) := by
  have hcases : k % 3 = 0 ∨ k % 3 = 1 ∨ k % 3 = 2 := by omega
  rcases hcases with h | h | h
  · have a1 : (k + 1) % 3 = 1 := by omega
    have a2 : (k + 2) % 3 = 2 := by omega
    have a3 : (k + 1 + 1) % 3 = 2 := by omega
    have a4 : (k + 1 + 2) % 3 = 0 := by omega
    have b1 : (k + 1) / 3 = k / 3 := by omega
    have b2 : (k + 2) / 3 = k / 3 := by omega
    have b3 : (k + 1 + 2) / 3 = k / 3 + 1 := by omega
    have b4 : (k + 1 + 1) / 3 = k / 3 := by omega
    simp [rrState, h, a1, a2, a3, a4, b1, b2, b3, b4, Scheduler.timerHandler,
      Scheduler.switchContext, Scheduler.handleOutgoing, Scheduler.selectNext,
      Scheduler.install, findThread, modifyThread, Thread.getState, Thread.setState,
      Thread.incrementQuantum]
    omega
  · have a1 : (k + 1) % 3 = 2 := by omega
    have a2 : (k + 2) % 3 = 0 := by omega
    have a3 : (k + 1 + 1) % 3 = 0 := by omega
    have a4 : (k + 1 + 2) % 3 = 1 := by omega
    have b1 : (k + 1) / 3 = k / 3 := by omega
    have b2 : (k + 2) / 3 = k / 3 + 1 := by omega
    have b3 : (k + 1 + 2) / 3 = k / 3 + 1 := by omega
    have b4 : (k + 1 + 1) / 3 = k / 3 + 1 := by omega
    simp [rrState, h, a1, a2, a3, a4, b1, b2, b3, b4, Scheduler.timerHandler,
      Scheduler.switchContext, Scheduler.handleOutgoing, Scheduler.selectNext,
      Scheduler.install, findThread, modifyThread, Thread.getState, Thread.setState,
      Thread.incrementQuantum]
    omega
  · have a1 : (k + 1) % 3 = 0 := by omega
    have a2 : (k + 2) % 3 = 1 := by omega
    have a3 : (k + 1 + 1) % 3 = 1 := by omega
    have a4 : (k + 1 + 2) % 3 = 2 := by omega
    have b1 : (k + 1) / 3 = k / 3 + 1 := by omega
    have b2 : (k + 2) / 3 = k / 3 + 1 := by omega
    have b3 : (k + 1 + 2) / 3 = k / 3 + 1 := by omega
    have b4 : (k + 1 + 1) / 3 = k / 3 + 1 := by omega
    simp [rrState, h, a1, a2, a3, a4, b1, b2, b3, b4, Scheduler.timerHandler,
      Scheduler.switchContext, Scheduler.handleOutgoing, Scheduler.selectNext,
      Scheduler.install, findThread, modifyThread, Thread.getState, Thread.setState,
      Thread.incrementQuantum]
    omega

theorem rrState_timers (q : Int) (f g k : Nat) :
    ∀ j : Nat, exec (rrState q f g j) (List.replicate k Op.timer)
      = some (rrState q f g (j + k)) := by
  induction k with
  | zero => intro j; rfl
  | succ k ih =>
    intro j
    simp only [List.replicate_succ, exec, apiCall_timer _ _ (rrState_timer q f g j), ih (j + 1)]
    rw [show j + 1 + k = j + (k + 1) by omega]

theorem rrState_zero (q : Int) (f g : Nat) :
    uthread_spawn (some (mkScheduler q)) (some f)
        = Outcome.ret 1 (some { threads := [(0, mainThread), (1, mkThread 1 (some f))],
                                ready_queue := [1], current_thread := 0, next_tid := 2,
                                total_quantums := 1, quantum_usecs := q })
      ∧ uthread_spawn (some { threads := [(0, mainThread), (1, mkThread 1 (some f))],
                              ready_queue := [1], current_thread := 0, next_tid := 2,
                              total_quantums := 1, quantum_usecs := q }) (some g)
        = Outcome.ret 2 (some (rrState q f g 0)) :=
  ⟨rfl, rfl⟩

/-! ## Keys after an election and after terminate -/

theorem timerHandler_keys (s s1 : Scheduler) (h : s.timerHandler = some s1) (k : Int) :
    (findThread s1.threads k).isSome = (findThread s.threads k).isSome := by
  unfold Scheduler.timerHandler at h
  split at h
  · cases h
  · unfold Scheduler.switchContext at h
    split at h
    · cases h
    · rename_i s0 h0
      rw [(install_shape _ _ h).2.2.2 k, (selectNext_shape s0).2.1,
        (handleOutgoing_shape s s0 h0).2.2.2 k]

theorem terminate_zero_erased (s s1 : Scheduler) (tid : Int)
    (h : s.terminate tid = some (0, s1)) : findThread s1.threads tid = none := by
  have herased : findThread (eraseThread s.threads tid) tid = none := by
    rw [findThread_eraseThread]; simp
  unfold Scheduler.terminate at h
  split at h
  · cases h
  · simp only at h
    split at h
    · cases h
    · split at h
      · split at h
        · cases h
        · rename_i s2 h2
          cases h
          have := timerHandler_keys { s with threads := eraseThread s.threads tid } s1 h2 tid
          simp only [herased, Option.isSome_none] at this
          cases hf : findThread s1.threads tid with
          | none => rfl
          | some t => simp [hf] at this
      · cases h
        exact herased

/-! ## Quantum accounting -/

theorem timerHandler_shape (s s1 : Scheduler) (h : s.timerHandler = some s1) :
    ∃ (m : ThreadMap) (q : List Int),
      ((m = modifyThread s.threads s.current_thread (fun t => t.setState State.READY)
          ∧ q = s.ready_queue ++ [s.current_thread])
        ∨ (m = s.threads ∧ q = s.ready_queue))
      ∧ ((q = [] ∧ s1.current_thread = s.current_thread ∧ s1.ready_queue = [])
        ∨ q = s1.current_thread :: s1.ready_queue)
      ∧ (findThread m s1.current_thread).isSome
      ∧ s1.threads = modifyThread m s1.current_thread
          (fun t => (t.setState State.RUNNING).incrementQuantum)
      ∧ s1.total_quantums = s.total_quantums + 1 := by
  unfold Scheduler.timerHandler at h
  split at h
  · cases h
  · unfold Scheduler.switchContext at h
    split at h
    · cases h
    · rename_i s0 h0
      have hsel := (selectNext_shape s0).2.2
      have hthr := (selectNext_shape s0).2.1
      have hs0 : (s0.threads = modifyThread s.threads s.current_thread
              (fun t => t.setState State.READY)
            ∧ s0.ready_queue = s.ready_queue ++ [s.current_thread])
          ∨ (s0.threads = s.threads ∧ s0.ready_queue = s.ready_queue) := by
        unfold Scheduler.handleOutgoing at h0
        split at h0
        · cases h0
        · split at h0
          · cases h0; exact Or.inl ⟨rfl, rfl⟩
          · cases h0; exact Or.inr ⟨rfl, rfl⟩
      have hc0 : s0.current_thread = s.current_thread := (handleOutgoing_shape s s0 h0).2.1
      have ht0 : s0.selectNext.total_quantums = s.total_quantums := by
        unfold Scheduler.handleOutgoing at h0
        unfold Scheduler.selectNext
        split at h0
        · cases h0
        · split at h0 <;> cases h0 <;> split <;> rfl
      unfold Scheduler.install at h
      split at h
      · cases h
      · rename_i t ht
        cases h
        refine ⟨s0.threads, s0.ready_queue, hs0, ?_, ?_, ?_, ?_⟩
        · rcases hsel with ⟨he, hcur, hqe⟩ | hcons
          · exact Or.inl ⟨he, by rw [← hc0]; exact hcur, hqe⟩
          · exact Or.inr hcons
        · show (findThread s0.threads s0.selectNext.current_thread).isSome
          rw [← hthr, ht]; rfl
        · show modifyThread s0.selectNext.threads s0.selectNext.current_thread
              (fun t => (t.setState State.RUNNING).incrementQuantum)
            = modifyThread s0.threads s0.selectNext.current_thread
              (fun t => (t.setState State.RUNNING).incrementQuantum)
          rw [hthr]
        · show s0.selectNext.total_quantums + 1 = _
          rw [ht0]

theorem timerHandler_total (s : Scheduler)
    (hc : (findThread s.threads s.current_thread).isSome)
    (hq : ∀ x ∈ s.ready_queue, (findThread s.threads x).isSome) :
    ∃ s1, s.timerHandler = some s1 := by
  obtain ⟨tc, htc⟩ := Option.isSome_iff_exists.1 hc
  by_cases hr : tc.state = State.RUNNING
  · cases hl : s.ready_queue with
    | nil =>
      exact ⟨_, timerHandler_running s tc s.current_thread [] htc hr (by rw [hl]; rfl) hc⟩
    | cons x rest =>
      exact ⟨_, timerHandler_running s tc x (rest ++ [s.current_thread]) htc hr
        (by rw [hl]; rfl) (hq x (by rw [hl]; exact List.mem_cons_self _ _))⟩
  · cases hl : s.ready_queue with
    | nil =>
      simp [Scheduler.timerHandler, htc, Scheduler.switchContext, Scheduler.handleOutgoing,
        Thread.getState, hr, Scheduler.selectNext, hl, Scheduler.install]
    | cons x rest =>
      obtain ⟨tx, htx⟩ := Option.isSome_iff_exists.1
        (hq x (by rw [hl]; exact List.mem_cons_self _ _))
      simp [Scheduler.timerHandler, htc, Scheduler.switchContext, Scheduler.handleOutgoing,
        Thread.getState, hr, Scheduler.selectNext, hl, Scheduler.install, htx]

theorem map_fst_modifyThread (m : ThreadMap) (k : Int) (f : Thread → Thread) :
    (modifyThread m k f).map Prod.fst = m.map Prod.fst := by
  induction m with
  | nil => rfl
  | cons p m ih =>
    obtain ⟨a, t⟩ := p
    rw [modifyThread_cons]
    by_cases hak : a = k
    · rw [if_pos hak]; simp [ih]
    · rw [if_neg hak]; simp [ih]

theorem isSome_findThread_iff (m : ThreadMap) (k : Int) :
    (findThread m k).isSome ↔ k ∈ m.map Prod.fst := by
  induction m with
  | nil => simp [findThread]
  | cons p m ih =>
    obtain ⟨a, t⟩ := p
    by_cases hak : a = k
    · simp [findThread, hak]
    · have hka : ¬ k = a := fun h => hak h.symm
      simp [findThread, hak, hka, ih]

theorem sumRunQuantums_cons (a : Int) (t : Thread) (m : ThreadMap) :
    sumRunQuantums ((a, t) :: m) = t.run_quantums + sumRunQuantums m := by
  simp [sumRunQuantums]

theorem sumRunQuantums_append (m m2 : ThreadMap) :
    sumRunQuantums (m ++ m2) = sumRunQuantums m + sumRunQuantums m2 := by
  simp [sumRunQuantums]

theorem sumRunQuantums_modify_same (m : ThreadMap) (k : Int) (f : Thread → Thread)
    (hf : ∀ t, (f t).run_quantums = t.run_quantums) :
    sumRunQuantums (modifyThread m k f) = sumRunQuantums m := by
  induction m with
  | nil => rfl
  | cons p m ih =>
    obtain ⟨a, t⟩ := p
    rw [modifyThread_cons]
    by_cases hak : a = k
    · rw [if_pos hak, sumRunQuantums_cons, sumRunQuantums_cons, ih, hf]
    · rw [if_neg hak, sumRunQuantums_cons, sumRunQuantums_cons, ih]

theorem sumRunQuantums_modify_absent (m : ThreadMap) (k : Int) (f : Thread → Thread)
    (hk : k ∉ m.map Prod.fst) : modifyThread m k f = m := by
  induction m with
  | nil => rfl
  | cons p m ih =>
    obtain ⟨a, t⟩ := p
    simp only [List.map_cons, List.mem_cons, not_or] at hk
    have hak : ¬ a = k := fun h => hk.1 h.symm
    rw [modifyThread_cons, if_neg hak, ih hk.2]

theorem sumRunQuantums_modify_incr (m : ThreadMap) (k : Int) (f : Thread → Thread)
    (hf : ∀ t, (f t).run_quantums = t.run_quantums + 1)
    (hnd : (m.map Prod.fst).Nodup) (hk : k ∈ m.map Prod.fst) :
    sumRunQuantums (modifyThread m k f) = sumRunQuantums m + 1 := by
  induction m with
  | nil => simp at hk
  | cons p m ih =>
    obtain ⟨a, t⟩ := p
    simp only [List.map_cons, List.nodup_cons] at hnd
    rw [modifyThread_cons]
    by_cases hak : a = k
    · subst hak
      rw [if_pos rfl, sumRunQuantums_cons, sumRunQuantums_cons,
        sumRunQuantums_modify_absent m a f hnd.1, hf]
      ring
    · have hmem : k ∈ m.map Prod.fst := by
        simp only [List.map_cons, List.mem_cons] at hk
        rcases hk with hk | hk
        · exact absurd hk.symm hak
        · exact hk
      rw [if_neg hak, sumRunQuantums_cons, sumRunQuantums_cons, ih hnd.2 hmem]
      ring

theorem mkScheduler_quantumInv (q : Int) : QuantumInv (mkScheduler q) :=
  ⟨by simp [mkScheduler, assignThread], by intro x hx; simp [mkScheduler] at hx, rfl, rfl⟩

theorem spawn_quantumInv (s s1 : Scheduler) (e : EntryPoint) (r : Int) (hi : QuantumInv s)
    (h : s.spawn e = some (r, s1)) : QuantumInv s1 := by
  obtain ⟨r0, hr, _, hfree⟩ := spawn_spec s e
  rw [hr] at h
  cases h
  have hnot : r ∉ s.threads.map Prod.fst := by
    rw [← isSome_findThread_iff, hfree]; simp
  have hlive : ∀ k, (findThread s.threads k).isSome →
      (findThread (s.threads ++ [(r, mkThread r e)]) k).isSome := by
    intro k hk
    obtain ⟨t, ht⟩ := Option.isSome_iff_exists.1 hk
    rw [findThread_append, ht]; rfl
  refine ⟨?_, ?_, hlive _ hi.current_live, ?_⟩
  · show ((s.threads ++ [(r, mkThread r e)]).map Prod.fst).Nodup
    rw [List.map_append]
    refine List.Nodup.append hi.keys_nodup (by simp) ?_
    simpa using hnot
  · intro x hx
    rcases List.mem_append.1 hx with hx | hx
    · exact hlive x (hi.queue_live x hx)
    · simp only [List.mem_singleton] at hx
      subst hx
      show (findThread (s.threads ++ [(x, mkThread x e)]) x).isSome
      rw [findThread_append, hfree]
      simp [findThread]
  · show s.total_quantums = 1 + sumRunQuantums (s.threads ++ [(r, mkThread r e)])
    rw [sumRunQuantums_append, hi.total]
    simp [sumRunQuantums, mkThread]

theorem timerHandler_quantumInv (s s1 : Scheduler) (hi : QuantumInv s)
    (h : s.timerHandler = some s1) : QuantumInv s1 := by
  obtain ⟨m, q, hmq, hsel, hlive, hthr, htot⟩ := timerHandler_shape s s1 h
  have hkeys : m.map Prod.fst = s.threads.map Prod.fst := by
    rcases hmq with ⟨hm, _⟩ | ⟨hm, _⟩
    · rw [hm, map_fst_modifyThread]
    · rw [hm]
  have hsum : sumRunQuantums m = sumRunQuantums s.threads := by
    rcases hmq with ⟨hm, _⟩ | ⟨hm, _⟩
    · rw [hm]; exact sumRunQuantums_modify_same _ _ _ (fun t => rfl)
    · rw [hm]
  have hq : ∀ x ∈ q, x ∈ s.threads.map Prod.fst := by
    intro x hx
    rw [← isSome_findThread_iff]
    rcases hmq with ⟨_, hq⟩ | ⟨_, hq⟩
    · rw [hq] at hx
      rcases List.mem_append.1 hx with hx | hx
      · exact hi.queue_live x hx
      · simp only [List.mem_singleton] at hx
        rw [hx]; exact hi.current_live
    · rw [hq] at hx; exact hi.queue_live x hx
  have hk1 : s1.threads.map Prod.fst = s.threads.map Prod.fst := by
    rw [hthr, map_fst_modifyThread, hkeys]
  refine ⟨by rw [hk1]; exact hi.keys_nodup, ?_, ?_, ?_⟩
  · intro x hx
    rw [isSome_findThread_iff, hk1]
    rcases hsel with ⟨_, _, hqe⟩ | hcons
    · rw [hqe] at hx; simp at hx
    · exact hq x (by rw [hcons]; exact List.mem_cons_of_mem _ hx)
  · rw [isSome_findThread_iff, hk1, ← hkeys, ← isSome_findThread_iff]
    exact hlive
  · rw [htot, hthr,
      sumRunQuantums_modify_incr m _ _ (fun t => rfl) (by rw [hkeys]; exact hi.keys_nodup)
        ((isSome_findThread_iff _ _).1 hlive), hsum, hi.total]
    ring

theorem exec_quantumInv (ops : List Op) :
    ∀ s : Scheduler, QuantumInv s → (∀ op ∈ ops, op.isSpawnOrTimer = true) →
      ∃ s1, exec s ops = some s1 ∧ QuantumInv s1 := by
  induction ops with
  | nil => intro s hi _; exact ⟨s, rfl, hi⟩
  | cons op ops ih =>
    intro s hi hops
    have hop := hops op (List.mem_cons_self _ _)
    have hrest : ∀ o ∈ ops, o.isSpawnOrTimer = true :=
      fun o ho => hops o (List.mem_cons_of_mem _ ho)
    cases op with
    | spawn e =>
      cases e with
      | none =>
        obtain ⟨s2, h2, hi2⟩ := ih s hi hrest
        exact ⟨s2, by simp only [exec, apiCall, uthread_spawn, h2], hi2⟩
      | some a =>
        obtain ⟨r, hr, _, _⟩ := spawn_spec s (some a)
        obtain ⟨s2, h2, hi2⟩ := ih _ (spawn_quantumInv s _ _ r hi hr) hrest
        exact ⟨s2, by simp only [exec, apiCall, uthread_spawn, hr, forward, h2], hi2⟩
    | timer =>
      obtain ⟨s1, h1⟩ := timerHandler_total s hi.current_live hi.queue_live
      obtain ⟨s2, h2, hi2⟩ := ih s1 (timerHandler_quantumInv s s1 hi h1) hrest
      exact ⟨s2, by simp only [exec, apiCall_timer s s1 h1, h2], hi2⟩
    | terminate tid => simp [Op.isSpawnOrTimer] at hop
    | block tid => simp [Op.isSpawnOrTimer] at hop
    | resume tid => simp [Op.isSpawnOrTimer] at hop
    | sleep q => simp [Op.isSpawnOrTimer] at hop

theorem timerHandler_counters (s s1 : Scheduler) (h : s.timerHandler = some s1) (k : Int) :
    (findThread s1.threads k).map Thread.getQuantums
      = (findThread s.threads k).map
          (fun t => if k = s1.current_thread then t.getQuantums + 1 else t.getQuantums) := by
  obtain ⟨m, q, hmq, _, _, hthr, _⟩ := timerHandler_shape s s1 h
  have hm : (findThread m k).map Thread.getQuantums
      = (findThread s.threads k).map Thread.getQuantums := by
    rcases hmq with ⟨hm, _⟩ | ⟨hm, _⟩
    · rw [hm, findThread_modifyThread]
      by_cases hck : s.current_thread = k
      · rw [if_pos hck]
        cases findThread s.threads k <;> rfl
      · rw [if_neg hck]
    · rw [hm]
  rw [hthr, findThread_modifyThread]
  by_cases hk : s1.current_thread = k
  · have hk2 : k = s1.current_thread := hk.symm
    rw [if_pos hk]
    simp only [hk2, if_true]
    rw [← hk2]
    have := hm
    cases hf : findThread m k with
    | none =>
      rw [hf] at this
      cases hg : findThread s.threads k with
      | none => rfl
      | some t => rw [hg] at this; cases this
    | some t =>
      rw [hf] at this
      cases hg : findThread s.threads k with
      | none => rw [hg] at this; cases this
      | some u =>
        rw [hg] at this
        simp only [Option.map, Option.some.injEq] at this
        simp [Thread.getQuantums, Thread.setState, Thread.incrementQuantum] at this ⊢
        exact this
  · have hk2 : ¬ k = s1.current_thread := fun e => hk e.symm
    rw [if_neg hk]
    simp only [hk2, if_false]
    exact hm

/-! ## The signal gate -/

theorem wrap32_wrap32_succ (x : Int) : wrap32 (wrap32 x + 1) = wrap32 (x + 1) := by
  unfold wrap32; omega

theorem wrap32_of_range (x : Int) (h1 : INT_MIN ≤ x) (h2 : x ≤ INT_MAX) : wrap32 x = x := by
  unfold INT_MIN at h1
  unfold INT_MAX at h2
  unfold wrap32; omega

theorem apiCall32_timer (s s1 : Scheduler) (h : s.timerHandler32 = some s1) :
    apiCall32 (some s) Op.timer = Outcome.ret 0 (some s1) := by
  simp only [apiCall32, h, Option.map, forward]

theorem rrState32_timer (q : Int) (f g k : Nat) :
    (rrState32 q f g k).timerHandler32 = some (rrState32 q f g (k + 1)) := by
  have hcases : k % 3 = 0 ∨ k % 3 = 1 ∨ k % 3 = 2 := by omega
  have hw : wrap32 (wrap32 (1 + (k : Int)) + 1) = wrap32 (1 + ((k : Int) + 1)) := by
    rw [wrap32_wrap32_succ]; congr 1
  rcases hcases with h | h | h
  · have a1 : (k + 1) % 3 = 1 := by omega
    have a2 : (k + 2) % 3 = 2 := by omega
    have a3 : (k + 1 + 1) % 3 = 2 := by omega
    have a4 : (k + 1 + 2) % 3 = 0 := by omega
    have b1 : (k + 1) / 3 = k / 3 := by omega
    have b2 : (k + 2) / 3 = k / 3 := by omega
    have b3 : (k + 1 + 2) / 3 = k / 3 + 1 := by omega
    have b4 : (k + 1 + 1) / 3 = k / 3 := by omega
    simp [rrState32, h, a1, a2, a3, a4, b1, b2, b3, b4, Scheduler.timerHandler32,
      Scheduler.switchContext32, Scheduler.handleOutgoing, Scheduler.selectNext,
      Scheduler.install32, findThread, modifyThread, Thread.getState, Thread.setState,
      Thread.incrementQuantum32, wrap32_wrap32_succ, hw]
  · have a1 : (k + 1) % 3 = 2 := by omega
    have a2 : (k + 2) % 3 = 0 := by omega
    have a3 : (k + 1 + 1) % 3 = 0 := by omega
    have a4 : (k + 1 + 2) % 3 = 1 := by omega
    have b1 : (k + 1) / 3 = k / 3 := by omega
    have b2 : (k + 2) / 3 = k / 3 + 1 := by omega
    have b3 : (k + 1 + 2) / 3 = k / 3 + 1 := by omega
    have b4 : (k + 1 + 1) / 3 = k / 3 + 1 := by omega
    simp [rrState32, h, a1, a2, a3, a4, b1, b2, b3, b4, Scheduler.timerHandler32,
      Scheduler.switchContext32, Scheduler.handleOutgoing, Scheduler.selectNext,
      Scheduler.install32, findThread, modifyThread, Thread.getState, Thread.setState,
      Thread.incrementQuantum32, wrap32_wrap32_succ, hw]
  · have a1 : (k + 1) % 3 = 0 := by omega
    have a2 : (k + 2) % 3 = 1 := by omega
    have a3 : (k + 1 + 1) % 3 = 1 := by omega
    have a4 : (k + 1 + 2) % 3 = 2 := by omega
    have b1 : (k + 1) / 3 = k / 3 + 1 := by omega
    have b2 : (k + 2) / 3 = k / 3 + 1 := by omega
    have b3 : (k + 1 + 2) / 3 = k / 3 + 1 := by omega
    have b4 : (k + 1 + 1) / 3 = k / 3 + 1 := by omega
    simp [rrState32, h, a1, a2, a3, a4, b1, b2, b3, b4, Scheduler.timerHandler32,
      Scheduler.switchContext32, Scheduler.handleOutgoing, Scheduler.selectNext,
      Scheduler.install32, findThread, modifyThread, Thread.getState, Thread.setState,
      Thread.incrementQuantum32, wrap32_wrap32_succ, hw]

theorem rrState32_timers (q : Int) (f g k : Nat) :
    ∀ j : Nat, exec32 (rrState32 q f g j) (List.replicate k Op.timer)
      = some (rrState32 q f g (j + k)) := by
  induction k with
  | zero => intro j; rfl
  | succ k ih =>
    intro j
    simp only [List.replicate_succ, exec32, apiCall32_timer _ _ (rrState32_timer q f g j),
      ih (j + 1)]
    rw [show j + 1 + k = j + (k + 1) by omega]

theorem rrState32_zero (q : Int) (f g : Nat) :
    uthread_spawn32 (some (mkScheduler q)) (some f)
        = Outcome.ret 1 (some { oneSpawned with
            threads := [(0, mainThread), (1, mkThread 1 (some f))], quantum_usecs := q })
      ∧ uthread_spawn32 (some { oneSpawned with
            threads := [(0, mainThread), (1, mkThread 1 (some f))], quantum_usecs := q })
          (some g)
        = Outcome.ret 2 (some (rrState32 q f g 0)) :=
  ⟨rfl, rfl⟩

theorem rrState32_run (q : Int) (f g k : Nat) :
    exec32 (mkScheduler q) (Op.spawn (some f) :: Op.spawn (some g) :: List.replicate k Op.timer)
      = some (rrState32 q f g k) := by
  have h := rrState32_timers q f g k 0
  rw [Nat.zero_add] at h
  simp only [exec32, apiCall32, (rrState32_zero q f g).1, (rrState32_zero q f g).2]
  exact h

/-- Entry `uthread_get_quantums` on a live id returns the counter of its thread. -/
theorem get_quantums_of_find (s : Scheduler) (tid : Int) (t : Thread)
    (h : findThread s.threads tid = some t) :
    uthread_get_quantums (some s) tid = Outcome.ret t.run_quantums (some s) := by
  simp only [uthread_get_quantums, Scheduler.getThreadQuantums, h, Thread.getQuantums]

/-- The counters that `get_quantums` reads for the two spawned threads in the
closed form `rrState32`. -/
theorem rrState32_quantums (q : Int) (f g k : Nat) :
    uthread_get_quantums (some (rrState32 q f g k)) 1
        = Outcome.ret (wrap32 (((k + 2) / 3 : Nat) : Int)) (some (rrState32 q f g k))
      ∧ uthread_get_quantums (some (rrState32 q f g k)) 2
        = Outcome.ret (wrap32 (((k + 1) / 3 : Nat) : Int)) (some (rrState32 q f g k)) := by
  have h1 : findThread (rrState32 q f g k).threads 1
      = some { id := 1, state := if k % 3 = 1 then State.RUNNING else State.READY,
               entryPoint := some f,
               run_quantums := wrap32 (((k + 2) / 3 : Nat) : Int), sleep_quantum := 0 } := rfl
  have h2 : findThread (rrState32 q f g k).threads 2
      = some { id := 2, state := if k % 3 = 2 then State.RUNNING else State.READY,
               entryPoint := some g,
               run_quantums := wrap32 (((k + 1) / 3 : Nat) : Int), sleep_quantum := 0 } := rfl
  have e1 := get_quantums_of_find _ 1 _ h1
  have e2 := get_quantums_of_find _ 2 _ h2
  exact ⟨e1, e2⟩

/-! ## Quantum accounting on 32-bit counters -/

theorem modifyThread_congr (m : ThreadMap) (k : Int) (f g : Thread → Thread)
    (h : ∀ p ∈ m, f p.2 = g p.2) : modifyThread m k f = modifyThread m k g := by
  induction m with
  | nil => rfl
  | cons p m ih =>
    obtain ⟨a, t⟩ := p
    have ht : f t = g t := h (a, t) (List.mem_cons_self _ _)
    have ih2 := ih (fun p hp => h p (List.mem_cons_of_mem _ hp))
    rw [modifyThread_cons, modifyThread_cons, ih2, ht]

theorem mem_modifyThread (m : ThreadMap) (k : Int) (f : Thread → Thread) (p : Int × Thread)
    (hp : p ∈ modifyThread m k f) : ∃ p0 ∈ m, p = p0 ∨ p = (p0.1, f p0.2) := by
  induction m with
  | nil => simp [modifyThread] at hp
  | cons x m ih =>
    obtain ⟨a, t⟩ := x
    rw [modifyThread_cons] at hp
    rcases List.mem_cons.1 hp with h | h
    · refine ⟨(a, t), List.mem_cons_self _ _, ?_⟩
      by_cases hak : a = k
      · rw [if_pos hak] at h; exact Or.inr h
      · rw [if_neg hak] at h; exact Or.inl h
    · obtain ⟨p0, hp0, hh⟩ := ih h
      exact ⟨p0, List.mem_cons_of_mem _ hp0, hh⟩

theorem run_quantums_le_sum (m : ThreadMap) (hn : ∀ p ∈ m, 0 ≤ p.2.run_quantums) :
    0 ≤ sumRunQuantums m ∧ ∀ p ∈ m, p.2.run_quantums ≤ sumRunQuantums m := by
  induction m with
  | nil => exact ⟨by simp [sumRunQuantums], by intro p hp; simp at hp⟩
  | cons x m ih =>
    obtain ⟨a, t⟩ := x
    obtain ⟨h0, hle⟩ := ih (fun p hp => hn p (List.mem_cons_of_mem _ hp))
    have ht : 0 ≤ t.run_quantums := hn (a, t) (List.mem_cons_self _ _)
    rw [sumRunQuantums_cons]
    refine ⟨by omega, ?_⟩
    intro p hp
    rcases List.mem_cons.1 hp with h | h
    · rw [h]; show t.run_quantums ≤ _; omega
    · have := hle p h; omega

theorem install32_eq_install (s : Scheduler)
    (h1 : wrap32 (s.total_quantums + 1) = s.total_quantums + 1)
    (h2 : ∀ p ∈ s.threads, wrap32 (p.2.run_quantums + 1) = p.2.run_quantums + 1) :
    s.install32 = s.install := by
  have hm : modifyThread s.threads s.current_thread
        (fun t => (t.setState State.RUNNING).incrementQuantum32)
      = modifyThread s.threads s.current_thread
        (fun t => (t.setState State.RUNNING).incrementQuantum) := by
    apply modifyThread_congr
    intro p hp
    have := h2 p hp
    simp only [Thread.incrementQuantum32, Thread.incrementQuantum, Thread.setState]
    rw [this]
  unfold Scheduler.install32 Scheduler.install
  rw [hm, h1]

theorem timerHandler32_eq_timerHandler (s : Scheduler)
    (h1 : wrap32 (s.total_quantums + 1) = s.total_quantums + 1)
    (h2 : ∀ p ∈ s.threads, wrap32 (p.2.run_quantums + 1) = p.2.run_quantums + 1) :
    s.timerHandler32 = s.timerHandler := by
  unfold Scheduler.timerHandler32 Scheduler.timerHandler
  cases hc : findThread s.threads s.current_thread with
  | none => rfl
  | some tc =>
    simp only
    unfold Scheduler.switchContext32 Scheduler.switchContext
    cases h0 : s.handleOutgoing with
    | none => rfl
    | some s0 =>
      simp only
      have hs0 : s0.total_quantums = s.total_quantums
          ∧ ∀ p ∈ s0.threads, wrap32 (p.2.run_quantums + 1) = p.2.run_quantums + 1 := by
        unfold Scheduler.handleOutgoing at h0
        rw [hc] at h0
        simp only at h0
        split at h0
        · cases h0
          refine ⟨rfl, ?_⟩
          intro p hp
          have hp2 : p ∈ modifyThread s.threads s.current_thread
              (fun t => t.setState State.READY) := hp
          obtain ⟨p0, hp0, hh⟩ := mem_modifyThread _ _ _ p hp2
          rcases hh with hh | hh
          · rw [hh]; exact h2 p0 hp0
          · rw [hh]; exact h2 p0 hp0
        · cases h0; exact ⟨rfl, h2⟩
      have hsel : s0.selectNext.total_quantums = s0.total_quantums
          ∧ s0.selectNext.threads = s0.threads := by
        unfold Scheduler.selectNext
        split <;> exact ⟨rfl, rfl⟩
      apply install32_eq_install
      · rw [hsel.1, hs0.1]; exact h1
      · rw [hsel.2]; exact hs0.2

theorem generateIdLoop32_fresh (m : ThreadMap) :
    ∀ (fuel : Nat) (n r : Int), generateIdLoop32 m fuel n = some r → findThread m r = none := by
  intro fuel
  induction fuel with
  | zero => intro n r h; simp [generateIdLoop32] at h
  | succ fuel ih =>
    intro n r h
    simp only [generateIdLoop32] at h
    split at h
    · exact ih _ _ h
    · rename_i hk
      cases h
      simpa using hk

theorem spawn32_spec (s s1 : Scheduler) (e : EntryPoint) (r : Int)
    (h : s.spawn32 e = some (r, s1)) :
    findThread s.threads r = none
      ∧ s1 = { s with threads := s.threads ++ [(r, mkThread r e)],
                      ready_queue := s.ready_queue ++ [r],
                      next_tid := wrap32 (r + 1) } := by
  unfold Scheduler.spawn32 Scheduler.generateId32 at h
  cases hl : generateIdLoop32 s.threads (s.threads.length + 1) s.next_tid with
  | none => simp [hl] at h
  | some n =>
    have hfree := generateIdLoop32_fresh _ _ _ _ hl
    simp only [hl] at h
    cases h
    exact ⟨hfree, by simp [assignThread_fresh _ _ _ hfree]⟩

theorem mkScheduler_counterInv (q : Int) : CounterInv (mkScheduler q) := by
  refine ⟨mkScheduler_quantumInv q, ?_⟩
  intro p hp
  simp [mkScheduler, assignThread, mkThread, Thread.setState] at hp
  rw [hp]

theorem spawn32_counterInv (s s1 : Scheduler) (e : EntryPoint) (r : Int) (hi : CounterInv s)
    (h : s.spawn32 e = some (r, s1)) : CounterInv s1 := by
  obtain ⟨hfree, hs1⟩ := spawn32_spec s s1 e r h
  subst hs1
  have hq := hi.quantum
  have hnot : r ∉ s.threads.map Prod.fst := by
    rw [← isSome_findThread_iff, hfree]; simp
  have hlive : ∀ k, (findThread s.threads k).isSome →
      (findThread (s.threads ++ [(r, mkThread r e)]) k).isSome := by
    intro k hk
    obtain ⟨t, ht⟩ := Option.isSome_iff_exists.1 hk
    rw [findThread_append, ht]; rfl
  refine ⟨⟨?_, ?_, hlive _ hq.current_live, ?_⟩, ?_⟩
  · show ((s.threads ++ [(r, mkThread r e)]).map Prod.fst).Nodup
    rw [List.map_append]
    refine List.Nodup.append hq.keys_nodup (by simp) ?_
    simpa using hnot
  · intro x hx
    rcases List.mem_append.1 hx with hx | hx
    · exact hlive x (hq.queue_live x hx)
    · simp only [List.mem_singleton] at hx
      subst hx
      show (findThread (s.threads ++ [(x, mkThread x e)]) x).isSome
      rw [findThread_append, hfree]
      simp [findThread]
  · show s.total_quantums = 1 + sumRunQuantums (s.threads ++ [(r, mkThread r e)])
    rw [sumRunQuantums_append, hq.total]
    simp [sumRunQuantums, mkThread]
  · intro p hp
    rcases List.mem_append.1 hp with hp | hp
    · exact hi.nonneg p hp
    · simp only [List.mem_singleton] at hp
      rw [hp]; simp [mkThread]

theorem counterInv_no_wrap (s : Scheduler) (hi : CounterInv s)
    (hb : s.total_quantums < INT_MAX) :
    wrap32 (s.total_quantums + 1) = s.total_quantums + 1
      ∧ ∀ p ∈ s.threads, wrap32 (p.2.run_quantums + 1) = p.2.run_quantums + 1 := by
  obtain ⟨h0, hle⟩ := run_quantums_le_sum s.threads hi.nonneg
  have ht := hi.quantum.total
  simp only [INT_MAX] at hb
  refine ⟨by apply wrap32_of_range <;> simp only [INT_MIN, INT_MAX] <;> omega, ?_⟩
  intro p hp
  have h1 := hle p hp
  have h2 := hi.nonneg p hp
  apply wrap32_of_range <;> simp only [INT_MIN, INT_MAX] <;> omega

theorem timerHandler32_counterInv (s s1 : Scheduler) (hi : CounterInv s)
    (hb : s.total_quantums < INT_MAX) (h : s.timerHandler32 = some s1) :
    s.timerHandler = some s1 ∧ CounterInv s1 := by
  obtain ⟨h1, h2⟩ := counterInv_no_wrap s hi hb
  rw [timerHandler32_eq_timerHandler s h1 h2] at h
  refine ⟨h, timerHandler_quantumInv s s1 hi.quantum h, ?_⟩
  obtain ⟨m, q, hmq, _, _, hthr, _⟩ := timerHandler_shape s s1 h
  have hm : ∀ p ∈ m, 0 ≤ p.2.run_quantums := by
    intro p hp
    rcases hmq with ⟨hm, _⟩ | ⟨hm, _⟩
    · rw [hm] at hp
      obtain ⟨p0, hp0, hh⟩ := mem_modifyThread _ _ _ p hp
      rcases hh with hh | hh
      · rw [hh]; exact hi.nonneg p0 hp0
      · rw [hh]; exact hi.nonneg p0 hp0
    · rw [hm] at hp; exact hi.nonneg p hp
  intro p hp
  rw [hthr] at hp
  obtain ⟨p0, hp0, hh⟩ := mem_modifyThread _ _ _ p hp
  rcases hh with hh | hh
  · rw [hh]; exact hm p0 hp0
  · rw [hh]
    have := hm p0 hp0
    show 0 ≤ p0.2.run_quantums + 1
    omega

theorem exec32_counterInv (ops : List Op) :
    ∀ s s1 : Scheduler, CounterInv s → (∀ op ∈ ops, op.isSpawnOrTimer = true) →
      exec32 s ops = some s1 → (∀ x ∈ runStates32 s ops, x.total_quantums < INT_MAX) →
      CounterInv s1 := by
  induction ops with
  | nil => intro s s1 hi _ h _; simp only [exec32] at h; cases h; exact hi
  | cons op ops ih =>
    intro s s1 hi hops h hb
    have hop := hops op (List.mem_cons_self _ _)
    have hrest : ∀ o ∈ ops, o.isSpawnOrTimer = true :=
      fun o ho => hops o (List.mem_cons_of_mem _ ho)
    have hbs : s.total_quantums < INT_MAX := hb s (by simp [runStates32])
    simp only [exec32] at h
    split at h
    · rename_i v s2 hcall
      have hb2 : ∀ x ∈ runStates32 s2 ops, x.total_quantums < INT_MAX := by
        intro x hx
        apply hb x
        simp only [runStates32, hcall]
        exact List.mem_cons_of_mem _ hx
      have hi2 : CounterInv s2 := by
        cases op with
        | spawn e =>
          cases e with
          | none =>
            simp only [apiCall32, uthread_spawn32] at hcall
            cases hcall; exact hi
          | some a =>
            simp only [apiCall32, uthread_spawn32] at hcall
            cases hs : s.spawn32 (some a) with
            | none => simp [hs, forward] at hcall
            | some p =>
              obtain ⟨r, s3⟩ := p
              simp only [hs, forward] at hcall
              cases hcall
              exact spawn32_counterInv s s2 _ _ hi hs
        | timer =>
          simp only [apiCall32] at hcall
          cases hs : s.timerHandler32 with
          | none => simp [hs, forward] at hcall
          | some s3 =>
            simp only [hs, forward, Option.map] at hcall
            cases hcall
            exact (timerHandler32_counterInv s s2 hi hbs hs).2
        | terminate tid => simp [Op.isSpawnOrTimer] at hop
        | block tid => simp [Op.isSpawnOrTimer] at hop
        | resume tid => simp [Op.isSpawnOrTimer] at hop
        | sleep q => simp [Op.isSpawnOrTimer] at hop
      exact ih s2 s1 hi2 hrest h hb2
    · cases h

theorem mem_runStates32_of_exec32 (ops : List Op) :
    ∀ s s1 : Scheduler, exec32 s ops = some s1 → s1 ∈ runStates32 s ops := by
  induction ops with
  | nil => intro s s1 h; simp only [exec32] at h; cases h; simp [runStates32]
  | cons op ops ih =>
    intro s s1 h
    simp only [exec32] at h
    split at h
    · rename_i v s2 hcall
      simp only [runStates32, hcall]
      exact List.mem_cons_of_mem _ (ih s2 s1 h)
    · cases h

/-! ## Id generation on a 32-bit cursor -/

theorem spawn32_at_cursor (s : Scheduler) (e : EntryPoint)
    (hfree : findThread s.threads s.next_tid = none) :
    s.spawn32 e = some (s.next_tid,
        { s with threads := s.threads ++ [(s.next_tid, mkThread s.next_tid e)],
                 ready_queue := s.ready_queue ++ [s.next_tid],
                 next_tid := wrap32 (s.next_tid + 1) }) := by
  simp [Scheduler.spawn32, Scheduler.generateId32, generateIdLoop32, hfree,
    assignThread_fresh _ _ _ hfree]

theorem spawn32_eq_spawn (s : Scheduler) (e : EntryPoint) (hi : IdInv s)
    (hb : s.next_tid < INT_MAX) : s.spawn32 e = s.spawn e := by
  have hfree := findThread_none_of_keys_lt s hi.keys_lt
  have hp := hi.next_pos
  have hw : wrap32 (s.next_tid + 1) = s.next_tid + 1 := by
    simp only [INT_MAX] at hb
    apply wrap32_of_range <;> simp only [INT_MIN, INT_MAX] <;> omega
  rw [spawn32_at_cursor s e hfree, spawn_at_cursor s e hfree, hw]

theorem timerHandler32_skeleton (s s1 : Scheduler) (h : s.timerHandler32 = some s1) :
    ∃ s2, s.timerHandler = some s2 ∧ s1.next_tid = s2.next_tid
      ∧ s1.ready_queue = s2.ready_queue ∧ s1.current_thread = s2.current_thread
      ∧ ∀ k, (findThread s1.threads k).isSome = (findThread s2.threads k).isSome := by
  unfold Scheduler.timerHandler32 at h
  cases hc : findThread s.threads s.current_thread with
  | none => simp [hc] at h
  | some tc =>
    simp only [hc] at h
    unfold Scheduler.switchContext32 at h
    cases h0 : s.handleOutgoing with
    | none => simp [h0] at h
    | some s0 =>
      simp only [h0] at h
      unfold Scheduler.install32 at h
      cases hf : findThread s0.selectNext.threads s0.selectNext.current_thread with
      | none => simp [hf] at h
      | some te =>
        simp only [hf] at h
        cases h
        refine ⟨{ s0.selectNext with
            threads := modifyThread s0.selectNext.threads s0.selectNext.current_thread
              (fun t => (t.setState State.RUNNING).incrementQuantum),
            total_quantums := s0.selectNext.total_quantums + 1 }, ?_, rfl, rfl, rfl, ?_⟩
        · simp only [Scheduler.timerHandler, hc, Scheduler.switchContext, h0,
            Scheduler.install, hf]
        · intro k
          simp only [isSome_findThread_modifyThread]

theorem idInv_of_skeleton (s1 s2 : Scheduler) (hi : IdInv s2)
    (hn : s1.next_tid = s2.next_tid) (hq : s1.ready_queue = s2.ready_queue)
    (hc : s1.current_thread = s2.current_thread)
    (hk : ∀ k, (findThread s1.threads k).isSome = (findThread s2.threads k).isSome) :
    IdInv s1 := by
  refine ⟨?_, ?_, ?_, ?_, ?_, ?_⟩
  · rw [hq]; exact hi.queue_nodup
  · rw [hq, hn]; exact hi.queue_lt
  · intro k h; rw [hk] at h; rw [hn]; exact hi.keys_lt k h
  · rw [hq, hc]; exact hi.current_not_queued
  · rw [hc, hn]; exact hi.current_lt
  · rw [hn]; exact hi.next_pos

theorem timerHandler32_idInv (s s1 : Scheduler) (hi : IdInv s)
    (h : s.timerHandler32 = some s1) : IdInv s1 ∧ s1.next_tid = s.next_tid := by
  obtain ⟨s2, h2, hn, hq, hc, hk⟩ := timerHandler32_skeleton s s1 h
  refine ⟨idInv_of_skeleton s1 s2 (timerHandler_idInv s s2 hi h2) hn hq hc hk, ?_⟩
  rw [hn]
  exact timerHandler_next_tid s s2 h2

theorem terminate32_idInv (s s1 : Scheduler) (tid r : Int) (hi : IdInv s)
    (h : s.terminate32 tid = some (r, s1)) : IdInv s1 ∧ s1.next_tid = s.next_tid := by
  have herase : IdInv { s with threads := eraseThread s.threads tid } := by
    refine ⟨hi.queue_nodup, hi.queue_lt, ?_, hi.current_not_queued, hi.current_lt, hi.next_pos⟩
    intro k hk
    simp only [findThread_eraseThread] at hk
    by_cases hkt : k = tid
    · simp [hkt] at hk
    · simp only [hkt, if_false] at hk
      exact hi.keys_lt k hk
  unfold Scheduler.terminate32 at h
  split at h
  · cases h; exact ⟨hi, rfl⟩
  · simp only at h
    split at h
    · cases h
    · split at h
      · split at h
        · cases h
        · rename_i s2 h2
          cases h
          have h3 := timerHandler32_idInv _ _ herase h2
          exact ⟨h3.1, h3.2⟩
      · cases h
        exact ⟨herase, rfl⟩

theorem wrap32_le_max (x : Int) : wrap32 x ≤ INT_MAX := by
  unfold wrap32 INT_MAX
  omega

theorem spawn32_idInv (s s1 : Scheduler) (e : EntryPoint) (r : Int) (hi : IdInv s)
    (hr : s.next_tid ≤ INT_MAX) (hpost : 1 ≤ s1.next_tid)
    (h : s.spawn32 e = some (r, s1)) : IdInv s1 ∧ s1.next_tid ≤ INT_MAX := by
  have hfree := findThread_none_of_keys_lt s hi.keys_lt
  by_cases hb : s.next_tid < INT_MAX
  · have h1 := h
    rw [spawn32_eq_spawn s e hi hb] at h
    refine ⟨spawn_idInv s s1 _ _ hi h, ?_⟩
    rw [spawn32_at_cursor s e hfree] at h1
    cases h1
    exact wrap32_le_max _
  · exfalso
    have hmax : s.next_tid = 2147483647 := by
      simp only [INT_MAX] at hb hr
      omega
    rw [spawn32_at_cursor s e hfree] at h
    cases h
    have hw : wrap32 (s.next_tid + 1) = -2147483648 := by
      rw [hmax]; decide
    have hp : 1 ≤ wrap32 (s.next_tid + 1) := hpost
    rw [hw] at hp
    exact absurd hp (by decide)

theorem apiCall32_idInv (s s1 : Scheduler) (op : Op) (v : Int) (hi : IdInv s)
    (hr : s.next_tid ≤ INT_MAX) (hpost : 1 ≤ s1.next_tid)
    (h : apiCall32 (some s) op = Outcome.ret v (some s1)) :
    IdInv s1 ∧ s1.next_tid ≤ INT_MAX := by
  cases op with
  | spawn e =>
    cases e with
    | none =>
      simp only [apiCall32, uthread_spawn32] at h
      cases h; exact ⟨hi, hr⟩
    | some a =>
      simp only [apiCall32, uthread_spawn32] at h
      cases hs : s.spawn32 (some a) with
      | none => simp [hs, forward] at h
      | some p =>
        obtain ⟨r, s2⟩ := p
        simp only [hs, forward] at h
        cases h
        exact spawn32_idInv s s1 _ _ hi hr hpost hs
  | terminate tid =>
    simp only [apiCall32, uthread_terminate32] at h
    split at h
    · cases h
    · cases hs : s.terminate32 tid with
      | none => simp [hs, forward] at h
      | some p =>
        obtain ⟨r, s2⟩ := p
        simp only [hs, forward] at h
        cases h
        have h3 := terminate32_idInv s s1 _ _ hi hs
        exact ⟨h3.1, by rw [h3.2]; exact hr⟩
  | block tid =>
    simp only [apiCall32, uthread_block, Scheduler.block, forward] at h
    cases h; exact ⟨hi, hr⟩
  | resume tid =>
    simp only [apiCall32, uthread_resume, Scheduler.resume, forward] at h
    cases h; exact ⟨hi, hr⟩
  | sleep q =>
    simp only [apiCall32, uthread_sleep, Scheduler.sleep, forward] at h
    cases h; exact ⟨hi, hr⟩
  | timer =>
    simp only [apiCall32] at h
    cases hs : s.timerHandler32 with
    | none => simp [hs, forward] at h
    | some s2 =>
      simp only [hs, forward, Option.map] at h
      cases h
      have h3 := timerHandler32_idInv s s1 hi hs
      exact ⟨h3.1, by rw [h3.2]; exact hr⟩

theorem head_mem_runStates32 (s : Scheduler) (ops : List Op) : s ∈ runStates32 s ops := by
  cases ops <;> simp [runStates32]

theorem exec32_idInv (ops : List Op) :
    ∀ s s1 : Scheduler, IdInv s → s.next_tid ≤ INT_MAX → exec32 s ops = some s1 →
      (∀ x ∈ runStates32 s ops, 1 ≤ x.next_tid) → IdInv s1 := by
  induction ops with
  | nil => intro s s1 hi _ h _; simp only [exec32] at h; cases h; exact hi
  | cons op ops ih =>
    intro s s1 hi hr h hb
    simp only [exec32] at h
    split at h
    · rename_i v s2 hcall
      have hb2 : ∀ x ∈ runStates32 s2 ops, 1 ≤ x.next_tid := by
        intro x hx
        apply hb x
        simp only [runStates32, hcall]
        exact List.mem_cons_of_mem _ hx
      have h2 := apiCall32_idInv s s2 op v hi hr (hb2 s2 (head_mem_runStates32 s2 ops)) hcall
      exact ih s2 s1 h2.1 h2.2 h hb2
    · cases h

/-! ## Running the id cursor up to `INT_MAX` -/

theorem staleQueue_succ (n : Nat) : staleQueue (n + 1) = staleQueue n ++ [(n : Int) + 1] := by
  simp [staleQueue, List.range_succ]

theorem churn_spawn (q : Int) (n e : Nat) :
    uthread_spawn32 (some (churnState q n)) (some e)
      = Outcome.ret ((n : Int) + 1)
          (some { threads := [(0, mainThread), ((n : Int) + 1, mkThread ((n : Int) + 1) (some e))],
                  ready_queue := staleQueue n ++ [(n : Int) + 1],
                  current_thread := 0,
                  next_tid := wrap32 ((n : Int) + 1 + 1),
                  total_quantums := 1,
                  quantum_usecs := q }) := by
  have hfree : findThread (churnState q n).threads (churnState q n).next_tid = none := by
    show findThread [(0, mainThread)] ((n : Int) + 1) = none
    have h0 : ¬ (0 : Int) = (n : Int) + 1 := by omega
    simp [findThread, h0]
  simp only [uthread_spawn32, spawn32_at_cursor _ (some e) hfree, forward]
  rfl

theorem churn_terminate (q : Int) (n e : Nat) :
    uthread_terminate32
        (some { threads := [(0, mainThread), ((n : Int) + 1, mkThread ((n : Int) + 1) (some e))],
                ready_queue := staleQueue n ++ [(n : Int) + 1],
                current_thread := 0,
                next_tid := (n : Int) + 1 + 1,
                total_quantums := 1,
                quantum_usecs := q }) ((n : Int) + 1)
      = Outcome.ret 0 (some (churnState q (n + 1))) := by
  have h0 : ¬ (0 : Int) = (n : Int) + 1 := by omega
  have h1 : ¬ (n : Int) + 1 = 0 := by omega
  simp only [uthread_terminate32, if_neg h1, Scheduler.terminate32, findThread, if_neg h0,
    if_true, eraseThread, Scheduler.getCurrentTid, forward]
  simp [List.filter, h0, h1, findThread, Thread.getId, mainThread, churnState, staleQueue_succ]

theorem churn_reachable (q : Int) (hq : 0 < q) :
    ∀ n : Nat, n + 1 ≤ 2147483647 → Reachable32 (churnState q n) := by
  have hq0 : ¬ q ≤ 0 := by omega
  intro n
  induction n with
  | zero =>
    intro _
    have h0 : uthread_init none q = Outcome.ret 0 (some (churnState q 0)) := by
      simp only [uthread_init, if_neg hq0]
      rfl
    exact Reachable32.init q _ h0
  | succ n ih =>
    intro hn
    have hr := ih (by omega)
    have hw : wrap32 ((n : Int) + 1 + 1) = (n : Int) + 1 + 1 := by
      apply wrap32_of_range <;> simp only [INT_MIN, INT_MAX] <;> omega
    have hs := churn_spawn q n 7
    rw [hw] at hs
    have hr1 := Reachable32.step _ (Op.spawn (some 7)) _ _ hr hs
    have ht := churn_terminate q n 7
    have hc : apiCall32 (some _) (Op.terminate ((n : Int) + 1)) = _ := ht
    exact Reachable32.step _ (Op.terminate ((n : Int) + 1)) 0 _ hr1 hc

/-! ## Election from a queue of live threads -/

/-- Election from a live queue head is first-in first-out: in a reachable state
whose current thread `c` is live and RUNNING and whose `ready_queue` is
`h :: rest` with `h` a live thread, a timer preemption makes `h` the current
thread, in state RUNNING, and leaves `ready_queue = rest ++ [c]` with `c` in state
READY. -/
theorem fifo_election_of_live_head (s : Scheduler) (c h : Int) (rest : List Int) (tc : Thread)
    (hreach : Reachable s) (hcur : s.current_thread = c)
    (hc : findThread s.threads c = some tc) (hr : tc.getState = State.RUNNING)
    (hq : s.ready_queue = h :: rest) (hh : (findThread s.threads h).isSome) :
    ∃ s1, apiCall (some s) Op.timer = Outcome.ret 0 (some s1)
      ∧ s1.current_thread = h
      ∧ (findThread s1.threads h).map Thread.getState = some State.RUNNING
      ∧ s1.ready_queue = rest ++ [c]
      ∧ (findThread s1.threads c).map Thread.getState = some State.READY := by
  subst hcur
  have hne : h ≠ s.current_thread := hreach.current_ne_head h rest hq
  have hq2 : s.ready_queue ++ [s.current_thread] = h :: (rest ++ [s.current_thread]) := by
    rw [hq]; rfl
  have ht := timerHandler_running s tc h _ hc hr hq2 hh
  refine ⟨_, apiCall_timer _ _ ht, rfl, ?_, rfl, ?_⟩
  · exact elected_running s.threads s.current_thread h hh
  · simp [findThread_modifyThread, hne, hc, Thread.getState, Thread.setState]

/-- Round robin without terminate: after `init(q)` and `n` spawns, which return
the ids 1..n, the thread that is current after `k` preemptions has id
`k mod (n+1)`: main, 1, .., n, main, 1, .. -/
theorem round_robin_after_spawns (q : Int) (es : List Nat) (k : Nat) (hq : 0 < q) :
    ∃ s0 s1, uthread_init none q = Outcome.ret 0 (some s0)
      ∧ (trace s0 (es.map (fun e => Op.spawn (some e)))).map Prod.snd
          = (List.range es.length).map (fun (i : Nat) => (i : Int) + 1)
      ∧ exec s0 (es.map (fun e => Op.spawn (some e)) ++ List.replicate k Op.timer)
          = some s1
      ∧ s1.current_thread = ((k % (es.length + 1) : Nat) : Int) := by
  have hq0 : ¬ q ≤ 0 := by omega
  obtain ⟨s1, hex, htr, hsp⟩ := spawns_spawnedUpTo es 0 (mkScheduler q) (mkScheduler_spawnedUpTo q)
  have hrr : RoundRobin es.length 0 s1 := by
    have := spawnedUpTo_roundRobin (0 + es.length) s1 hsp
    simpa using this
  obtain ⟨s2, hex2, hrr2⟩ := timers_roundRobin es.length k 0 s1 hrr
  refine ⟨mkScheduler q, s2, by simp [uthread_init, hq0], ?_, ?_, ?_⟩
  · rw [htr]
    apply List.map_congr_left
    intro i _
    push_cast; ring
  · rw [exec_append, hex]; exact hex2
  · have := hrr2.current
    simpa using this

/-- Self-election: in a state whose only live thread is the current RUNNING
thread and whose ready queue is empty, a timer preemption leaves the same thread
current and RUNNING and the queue empty, and `total_quantums` and its
`run_quantums` have each grown by 1. -/
theorem self_election_on_empty_queue (s : Scheduler) (c : Int) (tc : Thread)
    (hcur : s.current_thread = c) (hc : findThread s.threads c = some tc)
    (hr : tc.getState = State.RUNNING)
    (honly : ∀ k, (findThread s.threads k).isSome → k = c)
    (hq : s.ready_queue = []) :
    ∃ s1, apiCall (some s) Op.timer = Outcome.ret 0 (some s1)
      ∧ s1.current_thread = c
      ∧ findThread s1.threads c = some
          { id := tc.id, state := State.RUNNING, entryPoint := tc.entryPoint,
            run_quantums := tc.run_quantums + 1, sleep_quantum := tc.sleep_quantum }
      ∧ (∀ k, (findThread s1.threads k).isSome → k = c)
      ∧ s1.ready_queue = []
      ∧ s1.total_quantums = s.total_quantums + 1 := by
  subst hcur
  have hq2 : s.ready_queue ++ [s.current_thread] = s.current_thread :: [] := by
    rw [hq]; rfl
  have ht := timerHandler_running s tc s.current_thread [] hc hr hq2 (by simp [hc])
  refine ⟨_, apiCall_timer _ _ ht, rfl, ?_, ?_, rfl, rfl⟩
  · simp [findThread_modifyThread, hc, Thread.setState, Thread.incrementQuantum]
  · intro k hk
    simp only [isSome_findThread_modifyThread] at hk
    exact honly k hk

/-! ## The claims -/

/-- C1 (current thread is live, RUNNING and alone in that state; a terminated
thread is never elected): evaluation of the code at `init(100000)`, `spawn`,
`terminate(1)`.  The run is defined and reaches a state whose `ready_queue` still
holds the destroyed thread 1; the election of the next preemption (lines 84-87)
makes that destroyed thread `current_thread`, which is not a key of `threads`,
and the step that follows it writes through the dead pointer, so the preemption
has no defined result. -/
theorem C1_terminated_thread_is_elected :
    exec (mkScheduler 100000) [Op.spawn (some 7), Op.terminate 1] = some oneTerminated
      ∧ Reachable oneTerminated
      ∧ findThread oneTerminated.threads 1 = none
      ∧ oneTerminated.handleOutgoing.map (fun s1 => s1.selectNext.current_thread) = some 1
      ∧ oneTerminated.handleOutgoing.map
          (fun s1 => findThread s1.selectNext.threads s1.selectNext.current_thread) = some none
      ∧ apiCall (some oneTerminated) Op.timer = Outcome.undefined :=
  ⟨rfl, reachable_exec [Op.spawn (some 7), Op.terminate 1] (mkScheduler 100000) oneTerminated
      (reachable_mkScheduler 100000 (by decide)) rfl,
    rfl, rfl, rfl, rfl⟩

/-- C2 (terminate of a live thread other than main and the current one removes
it from `threads` and from `ready_queue`): evaluation of the code at
`init(100000)`, `spawn`, then `terminate(1)`.  Thread 1 is live, is not 0 and is
not current; the call returns 0 and erases the key 1, current and
`total_quantums` and the main thread are unchanged, but `ready_queue` is left as
it was and still contains 1. -/
theorem C2_terminate_leaves_queue_entry :
    exec (mkScheduler 100000) [Op.spawn (some 7)] = some oneSpawned
      ∧ Reachable oneSpawned
      ∧ (findThread oneSpawned.threads 1).isSome ∧ oneSpawned.current_thread ≠ 1
      ∧ uthread_terminate (some oneSpawned) 1 = Outcome.ret 0 (some oneTerminated)
      ∧ findThread oneTerminated.threads 1 = none
      ∧ findThread oneTerminated.threads 0 = findThread oneSpawned.threads 0
      ∧ oneTerminated.current_thread = oneSpawned.current_thread
      ∧ oneTerminated.total_quantums = oneSpawned.total_quantums
      ∧ oneTerminated.ready_queue = oneSpawned.ready_queue
      ∧ 1 ∈ oneTerminated.ready_queue :=
  ⟨rfl, reachable_exec [Op.spawn (some 7)] (mkScheduler 100000) oneSpawned
      (reachable_mkScheduler 100000 (by decide)) rfl,
    rfl, by decide, rfl, rfl, rfl, rfl, rfl, rfl, by decide⟩

/-- C3 (the entries of `ready_queue` are exactly the live READY threads):
evaluation of the code at `init(100000)`, `spawn`, `spawn`, `terminate(1)`.  The
state is reachable, its queue is `[1, 2]`, and the entry 1 is no live thread:
`threads` has the keys 0 and 2 only. -/
theorem C3_queue_holds_destroyed_thread :
    exec (mkScheduler 100000) [Op.spawn (some 7), Op.spawn (some 8), Op.terminate 1]
        = some twoSpawnedOneTerminated
      ∧ Reachable twoSpawnedOneTerminated
      ∧ twoSpawnedOneTerminated.ready_queue = [1, 2]
      ∧ findThread twoSpawnedOneTerminated.threads 1 = none
      ∧ twoSpawnedOneTerminated.threads.map Prod.fst = [0, 2] :=
  ⟨rfl, reachable_exec [Op.spawn (some 7), Op.spawn (some 8), Op.terminate 1]
      (mkScheduler 100000) twoSpawnedOneTerminated
      (reachable_mkScheduler 100000 (by decide)) rfl,
    rfl, rfl, rfl⟩

/-- C4 (no thread appears in `ready_queue` more than once): evaluation of the
code at the level of addresses at `init(100000)`, `spawn`, `spawn`,
`terminate(1)`, `spawn`.  The entry of the destroyed thread 1 (address 2) is
still queued when `make_unique` gives the freed block to thread 3, whose address
is pushed as well: the queue is `[2, 3, 2]`, the live thread 3 is in it twice,
and read through the pointers its entries have the ids 3, 2, 3. -/
theorem C4_queue_holds_thread_twice :
    (mkPtrScheduler 100000).exec
        [Op.spawn (some 7), Op.spawn (some 8), Op.terminate 1, Op.spawn (some 9)]
        = some reusedBlock
      ∧ reusedBlock.ready_queue = [2, 3, 2]
      ∧ ¬ reusedBlock.ready_queue.Nodup
      ∧ List.lookup 3 reusedBlock.threads = some 2
      ∧ reusedBlock.ready_queue.map (fun p => (reusedBlock.heap.read p).map Thread.getId)
          = [some 3, some 2, some 3] :=
  ⟨rfl, rfl, by decide, rfl, rfl⟩

/-- C5 (`total_quantums` equals the sum of `run_quantums`, from the state of
init on): evaluation of the code at `init(100000)`.  The constructor sets
`total_quantums = 1` and leaves the main thread's `run_quantums` at 0, so right
after a successful init the counter is 1 while the sum over all threads is 0 and
`get_quantums(0)` is 0; the election in `switchContext` increments both. -/
theorem C5_init_counts_main_in_total_only :
    uthread_init none 100000 = Outcome.ret 0 (some (mkScheduler 100000))
      ∧ (mkScheduler 100000).total_quantums = 1
      ∧ sumRunQuantums (mkScheduler 100000).threads = 0
      ∧ uthread_get_quantums (some (mkScheduler 100000)) 0
          = Outcome.ret 0 (some (mkScheduler 100000))
      ∧ uthread_get_total_quantums (some (mkScheduler 100000))
          = Outcome.ret 1 (some (mkScheduler 100000)) :=
  ⟨rfl, rfl, rfl, rfl, rfl⟩

/-- C6 (`uthread_init(q)` returns 0 for `q > 0` on an uninitialised library and
-1 exactly when `q <= 0` or the library is initialised): evaluation of the code
at `uthread_init(100000)` on an uninitialised library.  The constructor of the
main thread runs `setupContext` on an empty entry point and reads through the
null pointer, so the call has no defined result; when an allocation throws
first, the call returns -1 although `q > 0` and the library is not initialised;
and no call of `uthread_init` returns 0. -/
theorem C6_init_reads_null_entry_point :
    Thread.construct MAIN_TID none = none
      ∧ Scheduler.construct 100000 = none
      ∧ uthread_init_ctx none 100000 false = Outcome.undefined
      ∧ uthread_init_ctx none 100000 true = Outcome.ret (-1) none
      ∧ ∀ (scheduler : Option Scheduler) (q : Int) (throws : Bool) (s : Scheduler),
          uthread_init_ctx scheduler q throws ≠ Outcome.ret 0 (some s) := by
  refine ⟨rfl, rfl, rfl, rfl, ?_⟩
  intro scheduler q throws s h
  unfold uthread_init_ctx at h
  split at h
  · cases h
  · split at h
    · cases h
    · split at h
      · cases h
      · have hc : Scheduler.construct q = none := rfl
        rw [hc] at h
        cases h

/-- C7, the claim as written, on 32-bit `int`s: after `init(100000)` and
2147483646 times `t = spawn(f); terminate(t)` the cursor `next_tid` is `INT_MAX`;
the next `spawn` returns `INT_MAX` and `next_tid++` wraps to `INT_MIN`; in the
state so reached, `spawn` with a non-null entry point returns the id
`-2147483648`, which is not `>= 1`. -/
theorem C7_counterexample_cursor_overflow :
    Reachable32 (churnState 100000 2147483646)
      ∧ (churnState 100000 2147483646).next_tid = 2147483647
      ∧ uthread_spawn32 (some (churnState 100000 2147483646)) (some 7)
          = Outcome.ret 2147483647 (some cursorWrapped)
      ∧ Reachable32 cursorWrapped
      ∧ (∃ s1, uthread_spawn32 (some cursorWrapped) (some 8)
          = Outcome.ret (-2147483648) (some s1))
      ∧ ¬ (1 : Int) ≤ -2147483648 := by
  have hr := churn_reachable 100000 (by decide) 2147483646 (by decide)
  have hs : uthread_spawn32 (some (churnState 100000 2147483646)) (some 7)
      = Outcome.ret 2147483647 (some cursorWrapped) := churn_spawn 100000 2147483646 7
  have hfree : findThread cursorWrapped.threads cursorWrapped.next_tid = none := rfl
  have h2 : uthread_spawn32 (some cursorWrapped) (some 8)
      = Outcome.ret cursorWrapped.next_tid
          (some { cursorWrapped with
            threads := cursorWrapped.threads
              ++ [(cursorWrapped.next_tid, mkThread cursorWrapped.next_tid (some 8))],
            ready_queue := cursorWrapped.ready_queue ++ [cursorWrapped.next_tid],
            next_tid := wrap32 (cursorWrapped.next_tid + 1) }) := by
    simp only [uthread_spawn32, spawn32_at_cursor _ (some 8) hfree, forward]
  exact ⟨hr, rfl, hs, Reachable32.step _ (Op.spawn (some 7)) _ _ hr hs, ⟨_, h2⟩, by decide⟩

/-- C7, amended: in every state reached from `init(q)` by a run in which the
cursor `next_tid` has not wrapped around (it is at least 1 in every state of the
run), `spawn` with a non-null entry point returns an id `tid >= 1` that was not
a key of `threads`; afterwards `threads` is the old map extended with `tid`
bound to a READY thread with `run_quantums = 0` and sleep counter 0,
`ready_queue` is the old queue with `tid` appended at the tail, and current,
`total_quantums` and every other thread are unchanged (on 32-bit `int`s). -/
theorem C7_spawn (q : Int) (ops : List Op) (s : Scheduler) (e : Nat) (hq : 0 < q)
    (hrun : exec32 (mkScheduler q) ops = some s)
    (hbound : ∀ x ∈ runStates32 (mkScheduler q) ops, 1 ≤ x.next_tid) :
    uthread_init none q = Outcome.ret 0 (some (mkScheduler q))
      ∧ ∃ tid s1, uthread_spawn32 (some s) (some e) = Outcome.ret tid (some s1)
      ∧ 1 ≤ tid
      ∧ findThread s.threads tid = none
      ∧ s1.threads = s.threads ++ [(tid,
            { id := tid, state := State.READY, entryPoint := some e,
              run_quantums := 0, sleep_quantum := 0 })]
      ∧ findThread s1.threads tid = some
            { id := tid, state := State.READY, entryPoint := some e,
              run_quantums := 0, sleep_quantum := 0 }
      ∧ (∀ k, k ≠ tid → findThread s1.threads k = findThread s.threads k)
      ∧ s1.ready_queue = s.ready_queue ++ [tid]
      ∧ s1.current_thread = s.current_thread
      ∧ s1.total_quantums = s.total_quantums := by
  have hq0 : ¬ q ≤ 0 := by omega
  have hi := exec32_idInv ops (mkScheduler q) s (mkScheduler_idInv q)
    (show (1 : Int) ≤ INT_MAX by decide) hrun hbound
  have hfree := findThread_none_of_keys_lt s hi.keys_lt
  have hpos := hi.next_pos
  refine ⟨by simp [uthread_init, hq0], s.next_tid,
    { s with threads := s.threads ++ [(s.next_tid, mkThread s.next_tid (some e))],
             ready_queue := s.ready_queue ++ [s.next_tid],
             next_tid := wrap32 (s.next_tid + 1) },
    by simp only [uthread_spawn32, spawn32_at_cursor s (some e) hfree, forward],
    hpos, hfree, rfl, ?_, ?_, rfl, rfl, rfl⟩
  · show findThread (s.threads ++ [(s.next_tid, mkThread s.next_tid (some e))]) s.next_tid = _
    rw [findThread_append, hfree]
    simp [findThread, mkThread]
  · intro k hk
    show findThread (s.threads ++ [(s.next_tid, mkThread s.next_tid (some e))]) k = _
    rw [findThread_append]
    have hrk : ¬ s.next_tid = k := fun h => hk h.symm
    cases hf : findThread s.threads k <;> simp [findThread, hrk]

/-- C7 at the state after `init(100000)`, two spawns and `terminate(1)`. -/
theorem C7_spawn_witness :
    exec32 (mkScheduler 100000) [Op.spawn (some 7), Op.spawn (some 8), Op.terminate 1]
        = some twoSpawnedOneTerminated
      ∧ uthread_init none 100000 = Outcome.ret 0 (some (mkScheduler 100000))
      ∧ ∃ tid s1, uthread_spawn32 (some twoSpawnedOneTerminated) (some 9) = Outcome.ret tid (some s1)
      ∧ 1 ≤ tid
      ∧ findThread twoSpawnedOneTerminated.threads tid = none
      ∧ s1.threads = twoSpawnedOneTerminated.threads ++ [(tid,
            { id := tid, state := State.READY, entryPoint := some 9,
              run_quantums := 0, sleep_quantum := 0 })]
      ∧ findThread s1.threads tid = some
            { id := tid, state := State.READY, entryPoint := some 9,
              run_quantums := 0, sleep_quantum := 0 }
      ∧ (∀ k, k ≠ tid → findThread s1.threads k = findThread twoSpawnedOneTerminated.threads k)
      ∧ s1.ready_queue = twoSpawnedOneTerminated.ready_queue ++ [tid]
      ∧ s1.current_thread = twoSpawnedOneTerminated.current_thread
      ∧ s1.total_quantums = twoSpawnedOneTerminated.total_quantums :=
  ⟨rfl, C7_spawn 100000 [Op.spawn (some 7), Op.spawn (some 8), Op.terminate 1]
      twoSpawnedOneTerminated 9 (by decide) rfl (by decide)⟩

/-- C8: in every run in which `next_tid` stays below `INT_MAX`, each id returned
by a spawn is strictly greater than every id returned by an earlier spawn (so the
ids are non-decreasing), whatever events happen in between, and strictly greater
than the id of every thread terminated earlier: the id of a terminated thread is
not handed out again. -/
theorem C8_spawn_ids_increase (s : Scheduler) (ops : List Op) (h : Reachable s)
    (_hbound : ∀ x ∈ runStates s ops, x.next_tid < INT_MAX) :
    (trace s ops).Pairwise IdOrder :=
  trace_idOrder ops s h.idInv

/-- C8 on the run `spawn`, `spawn`, `terminate(1)`, `spawn`, `terminate(2)`, `spawn`
after `init(100000)`: the ids returned are 1, 2, 3 and 4. -/
theorem C8_spawn_ids_increase_witness :
    (trace (mkScheduler 100000)
        [Op.spawn (some 7), Op.spawn (some 8), Op.terminate 1, Op.spawn (some 9),
         Op.terminate 2, Op.spawn (some 7)]).map Prod.snd = [1, 2, 0, 3, 0, 4]
      ∧ (trace (mkScheduler 100000)
        [Op.spawn (some 7), Op.spawn (some 8), Op.terminate 1, Op.spawn (some 9),
         Op.terminate 2, Op.spawn (some 7)]).Pairwise IdOrder :=
  ⟨by decide,
   C8_spawn_ids_increase (mkScheduler 100000) _ (reachable_mkScheduler 100000 (by decide))
    (by decide)⟩

/-- C9 (election is strict FIFO: the queue head becomes the current RUNNING
thread): evaluation of the code at `init(100000)`, `spawn`, `spawn`,
`terminate(1)`, then one timer preemption.  The current thread 0 is live and
RUNNING and `ready_queue = 1 :: [2]`, but the head is the entry that `terminate`
left behind for the destroyed thread 1: the election makes that entry
`current_thread` and line 89 writes through it, so the preemption has no defined
result, and the thread 2 that was READY behind it is not elected. -/
theorem C9_election_takes_destroyed_head :
    exec (mkScheduler 100000) [Op.spawn (some 7), Op.spawn (some 8), Op.terminate 1]
        = some twoSpawnedOneTerminated
      ∧ twoSpawnedOneTerminated.current_thread = 0
      ∧ (findThread twoSpawnedOneTerminated.threads 0).map Thread.getState
          = some State.RUNNING
      ∧ twoSpawnedOneTerminated.ready_queue = 1 :: [2]
      ∧ findThread twoSpawnedOneTerminated.threads 1 = none
      ∧ twoSpawnedOneTerminated.handleOutgoing.map
          (fun s1 => (s1.selectNext.current_thread, s1.selectNext.ready_queue))
          = some (1, [2] ++ [0])
      ∧ twoSpawnedOneTerminated.handleOutgoing.map
          (fun s1 => findThread s1.selectNext.threads s1.selectNext.current_thread) = some none
      ∧ twoSpawnedOneTerminated.timerHandler = none
      ∧ apiCall (some twoSpawnedOneTerminated) Op.timer = Outcome.undefined :=
  ⟨rfl, rfl, rfl, rfl, rfl, rfl, rfl, rfl, rfl⟩

/-- C10, the claim as written, on 32-bit counters: after `init(100000)`,
`spawn`, `spawn` and `3 * 2^31 - 2` timer preemptions the counter of thread 1 has
been incremented `2^31` times and has wrapped to `INT_MIN`, while the counter of
thread 2 is `INT_MAX`: `get_quantums(1)` and `get_quantums(2)` differ by more
than 1. -/
theorem C10_counterexample_counter_overflow :
    uthread_init none 100000 = Outcome.ret 0 (some (mkScheduler 100000))
      ∧ uthread_spawn32 (some (mkScheduler 100000)) (some 7) = Outcome.ret 1 (some oneSpawned)
      ∧ uthread_spawn32 (some oneSpawned) (some 8)
          = Outcome.ret 2 (some (rrState32 100000 7 8 0))
      ∧ exec32 (rrState32 100000 7 8 0) (List.replicate 6442450942 Op.timer)
          = some (rrState32 100000 7 8 6442450942)
      ∧ uthread_get_quantums (some (rrState32 100000 7 8 6442450942)) 1
          = Outcome.ret (-2147483648) (some (rrState32 100000 7 8 6442450942))
      ∧ uthread_get_quantums (some (rrState32 100000 7 8 6442450942)) 2
          = Outcome.ret 2147483647 (some (rrState32 100000 7 8 6442450942))
      ∧ ¬ ((2147483647 : Int) - (-2147483648) ≤ 1) := by
  refine ⟨rfl, rfl, rfl, ?_, ?_, ?_, by decide⟩
  · have h := rrState32_timers 100000 7 8 6442450942 0
    rw [Nat.zero_add] at h
    exact h
  · rfl
  · rfl

/-- C10, amended: after `init(q)`, `t1 = spawn(F)`, `t2 = spawn(G)` and `k`
timer preemptions with `k < 3 * 2^31 - 2`, so that no `run_quantums` counter has
overflowed, `get_quantums(t1)` and `get_quantums(t2)` are the counters of two
live threads and differ by at most 1 (on 32-bit `int`s). -/
theorem C10_quantums_differ_by_at_most_one (q : Int) (f g k : Nat) (hq : 0 < q)
    (hk : k + 2 < 3 * 2147483648) :
    ∃ (s0 : Scheduler) (t1 : Int) (s1 : Scheduler) (t2 : Int) (s2 s : Scheduler) (a b : Int),
      uthread_init none q = Outcome.ret 0 (some s0)
        ∧ uthread_spawn32 (some s0) (some f) = Outcome.ret t1 (some s1)
        ∧ uthread_spawn32 (some s1) (some g) = Outcome.ret t2 (some s2)
        ∧ exec32 s2 (List.replicate k Op.timer) = some s
        ∧ uthread_get_quantums (some s) t1 = Outcome.ret a (some s)
        ∧ uthread_get_quantums (some s) t2 = Outcome.ret b (some s)
        ∧ (findThread s.threads t1).isSome ∧ (findThread s.threads t2).isSome
        ∧ a - b ≤ 1 ∧ b - a ≤ 1 := by
  have hq0 : ¬ q ≤ 0 := by omega
  have h1 : wrap32 (((k + 2) / 3 : Nat) : Int) = (((k + 2) / 3 : Nat) : Int) := by
    apply wrap32_of_range <;> simp only [INT_MIN, INT_MAX] <;> omega
  have h2 : wrap32 (((k + 1) / 3 : Nat) : Int) = (((k + 1) / 3 : Nat) : Int) := by
    apply wrap32_of_range <;> simp only [INT_MIN, INT_MAX] <;> omega
  have h := rrState32_timers q f g k 0
  rw [Nat.zero_add] at h
  have hlive : (findThread (rrState32 q f g k).threads 1).isSome
      ∧ (findThread (rrState32 q f g k).threads 2).isSome := ⟨rfl, rfl⟩
  have hbound : wrap32 (((k + 2) / 3 : Nat) : Int) - wrap32 (((k + 1) / 3 : Nat) : Int) ≤ 1
      ∧ wrap32 (((k + 1) / 3 : Nat) : Int) - wrap32 (((k + 2) / 3 : Nat) : Int) ≤ 1 := by
    rw [h1, h2]; omega
  exact ⟨mkScheduler q, 1,
    { oneSpawned with threads := [(0, mainThread), (1, mkThread 1 (some f))],
                      quantum_usecs := q },
    2, rrState32 q f g 0, rrState32 q f g k,
    wrap32 (((k + 2) / 3 : Nat) : Int), wrap32 (((k + 1) / 3 : Nat) : Int),
    by simp [uthread_init, hq0], (rrState32_zero q f g).1, (rrState32_zero q f g).2, h,
    (rrState32_quantums q f g k).1, (rrState32_quantums q f g k).2, hlive.1, hlive.2,
    hbound.1, hbound.2⟩

/-- C10 at `init(100000)`, two spawns and 7 preemptions. -/
theorem C10_quantums_differ_by_at_most_one_witness :
    ∃ (s0 : Scheduler) (t1 : Int) (s1 : Scheduler) (t2 : Int) (s2 s : Scheduler) (a b : Int),
      uthread_init none 100000 = Outcome.ret 0 (some s0)
        ∧ uthread_spawn32 (some s0) (some 7) = Outcome.ret t1 (some s1)
        ∧ uthread_spawn32 (some s1) (some 8) = Outcome.ret t2 (some s2)
        ∧ exec32 s2 (List.replicate 7 Op.timer) = some s
        ∧ uthread_get_quantums (some s) t1 = Outcome.ret a (some s)
        ∧ uthread_get_quantums (some s) t2 = Outcome.ret b (some s)
        ∧ (findThread s.threads t1).isSome ∧ (findThread s.threads t2).isSome
        ∧ a - b ≤ 1 ∧ b - a ≤ 1 :=
  C10_quantums_differ_by_at_most_one 100000 7 8 7 (by decide) (by decide)

/-- C11 (a preemption does not switch out the only live thread, and the ready
queue is empty before and after): evaluation of the code at `init(100000)`,
`spawn`, `terminate(1)`, then one timer preemption.  The main thread is the only
live thread and is current and RUNNING, but the ready queue is not empty: it
holds the entry of the destroyed thread 1.  The preemption sets main READY,
queues it and takes the entry of the destroyed thread as `current_thread`, so
main is switched out and the preemption has no defined result. -/
theorem C11_only_live_thread_is_switched_out :
    exec (mkScheduler 100000) [Op.spawn (some 7), Op.terminate 1] = some oneTerminated
      ∧ oneTerminated.threads.map Prod.fst = [0]
      ∧ oneTerminated.current_thread = 0
      ∧ (findThread oneTerminated.threads 0).map Thread.getState = some State.RUNNING
      ∧ oneTerminated.ready_queue = [1]
      ∧ oneTerminated.handleOutgoing.map Scheduler.selectNext
          = some { threads := [(0, mainThread.setState State.READY)],
                   ready_queue := [0], current_thread := 1, next_tid := 2,
                   total_quantums := 1, quantum_usecs := 100000 }
      ∧ oneTerminated.timerHandler = none :=
  ⟨rfl, rfl, rfl, rfl, rfl, rfl, rfl⟩

/-- C12: for every initialised state and every `tid != 0` that is not a key of
`threads`, `uthread_terminate(tid)` returns -1 and leaves the whole scheduler
state unchanged. -/
theorem C12_terminate_unknown_id (s : Scheduler) (tid : Int) (h0 : tid ≠ 0)
    (hk : findThread s.threads tid = none) :
    uthread_terminate (some s) tid = Outcome.ret (-1) (some s) := by
  simp [uthread_terminate, h0, Scheduler.terminate, hk, forward]

/-- C12 at the state after `init(100000)`, `spawn`, `terminate(1)`, for the id 1
of the destroyed thread. -/
theorem C12_terminate_unknown_id_witness :
    Reachable oneTerminated
      ∧ uthread_terminate (some oneTerminated) 1 = Outcome.ret (-1) (some oneTerminated) :=
  ⟨reachable_exec [Op.spawn (some 7), Op.terminate 1] (mkScheduler 100000) oneTerminated
      (reachable_mkScheduler 100000 (by decide)) rfl,
    C12_terminate_unknown_id oneTerminated 1 (by decide) rfl⟩

/-- C13: in every initialised state `get_quantums(tid)` returns the
`run_quantums` of the thread bound to `tid` when `tid` is a key of `threads` and
-1 otherwise, and leaves the state as it is; after a `terminate(tid)` that
returned 0, `get_quantums(tid)` returns -1. -/
theorem C13_get_quantums (s : Scheduler) (tid : Int) :
    (∀ t, findThread s.threads tid = some t →
        uthread_get_quantums (some s) tid = Outcome.ret t.run_quantums (some s))
      ∧ (findThread s.threads tid = none →
        uthread_get_quantums (some s) tid = Outcome.ret (-1) (some s))
      ∧ (∀ s1, uthread_terminate (some s) tid = Outcome.ret 0 (some s1) →
        uthread_get_quantums (some s1) tid = Outcome.ret (-1) (some s1)) := by
  refine ⟨?_, ?_, ?_⟩
  · intro t ht
    simp [uthread_get_quantums, Scheduler.getThreadQuantums, ht, Thread.getQuantums]
  · intro ht
    simp [uthread_get_quantums, Scheduler.getThreadQuantums, ht]
  · intro s1 h
    simp only [uthread_terminate] at h
    split at h
    · cases h
    · cases hs : s.terminate tid with
      | none => simp [hs, forward] at h
      | some p =>
        obtain ⟨r, s2⟩ := p
        simp only [hs, forward] at h
        cases h
        have := terminate_zero_erased s s1 tid hs
        simp [uthread_get_quantums, Scheduler.getThreadQuantums, this]

/-- C13 at the state after `init(100000)`, two spawns and four preemptions, for
the live thread 1 (elected twice), for the unknown id 5, and for thread 2 after
its termination. -/
theorem C13_get_quantums_witness :
    uthread_get_quantums (some (rrState 100000 7 8 4)) 1
        = Outcome.ret 2 (some (rrState 100000 7 8 4))
      ∧ uthread_get_quantums (some (rrState 100000 7 8 4)) 5
        = Outcome.ret (-1) (some (rrState 100000 7 8 4))
      ∧ (∃ s1, uthread_terminate (some (rrState 100000 7 8 4)) 2 = Outcome.ret 0 (some s1)
          ∧ uthread_get_quantums (some s1) 2 = Outcome.ret (-1) (some s1)) :=
  ⟨(C13_get_quantums (rrState 100000 7 8 4) 1).1 _ rfl,
   (C13_get_quantums (rrState 100000 7 8 4) 5).2.1 rfl,
   ⟨{ rrState 100000 7 8 4 with threads := eraseThread (rrState 100000 7 8 4).threads 2 }, rfl,
    (C13_get_quantums (rrState 100000 7 8 4) 2).2.2 _ rfl⟩⟩

/-- C14: while the library is not initialised, every entry point other than
`uthread_init` returns -1 for every argument and leaves it uninitialised. -/
theorem C14_calls_before_init (entry_point : EntryPoint) (tid q : Int) :
    uthread_spawn none entry_point = Outcome.ret (-1) none
      ∧ uthread_terminate none tid = Outcome.ret (-1) none
      ∧ uthread_terminate none 0 = Outcome.ret (-1) none
      ∧ uthread_block none tid = Outcome.ret (-1) none
      ∧ uthread_resume none tid = Outcome.ret (-1) none
      ∧ uthread_sleep none q = Outcome.ret (-1) none
      ∧ uthread_get_tid none = Outcome.ret (-1) none
      ∧ uthread_get_total_quantums none = Outcome.ret (-1) none
      ∧ uthread_get_quantums none tid = Outcome.ret (-1) none := by
  refine ⟨?_, rfl, rfl, rfl, rfl, rfl, rfl, rfl, rfl⟩
  cases entry_point <;> rfl

/-- C15 (misuse of block, resume and sleep is rejected with -1): evaluation of
the code right after `init(100000)`.  `uthread_block(0)`, `uthread_block(5)` and
`uthread_resume(5)` (5 is no key of `threads`), `uthread_sleep(3)` called by the
main thread and `uthread_sleep(0)` all return 0, not -1: the three methods of the
scheduler are placeholders that return 0 whatever the argument.  The state is
left unchanged. -/
theorem C15_misuse_returns_zero :
    uthread_init none 100000 = Outcome.ret 0 (some (mkScheduler 100000))
      ∧ findThread (mkScheduler 100000).threads 5 = none
      ∧ (mkScheduler 100000).getCurrentTid = some 0
      ∧ uthread_block (some (mkScheduler 100000)) 0
          = Outcome.ret 0 (some (mkScheduler 100000))
      ∧ uthread_block (some (mkScheduler 100000)) 5
          = Outcome.ret 0 (some (mkScheduler 100000))
      ∧ uthread_resume (some (mkScheduler 100000)) 5
          = Outcome.ret 0 (some (mkScheduler 100000))
      ∧ uthread_sleep (some (mkScheduler 100000)) 3
          = Outcome.ret 0 (some (mkScheduler 100000))
      ∧ uthread_sleep (some (mkScheduler 100000)) 0
          = Outcome.ret 0 (some (mkScheduler 100000)) :=
  ⟨rfl, rfl, rfl, rfl, rfl, rfl, rfl, rfl⟩

/-- C16 (after `block(tid)` the thread is BLOCKED, out of the ready queue and
not elected before a resume): evaluation of the code at `init(100000)`, `spawn`,
then `block(1)`.  The call returns 0 and changes nothing: thread 1 is still READY
and still in `ready_queue`, and the next preemption, with no resume in between,
makes it the current thread. -/
theorem C16_blocked_thread_is_elected :
    exec (mkScheduler 100000) [Op.spawn (some 7)] = some oneSpawned
      ∧ Reachable oneSpawned
      ∧ uthread_block (some oneSpawned) 1 = Outcome.ret 0 (some oneSpawned)
      ∧ (findThread oneSpawned.threads 1).map Thread.getState = some State.READY
      ∧ 1 ∈ oneSpawned.ready_queue
      ∧ exec oneSpawned [Op.block 1, Op.timer] = some oneElected
      ∧ oneElected.current_thread = 1
      ∧ (findThread oneElected.threads 1).map Thread.getState = some State.RUNNING :=
  ⟨rfl, reachable_exec [Op.spawn (some 7)] (mkScheduler 100000) oneSpawned
      (reachable_mkScheduler 100000 (by decide)) rfl,
    rfl, rfl, by decide, rfl, rfl, rfl⟩

/-- C17 (`sleep(n)` sets the caller's countdown to `n`, switches at once and
keeps the caller unelected for `n - 1` elections): evaluation of the code at
`init(100000)`, `spawn`, one preemption, then `sleep(3)` called by thread 1.  The
call returns 0 and changes nothing: the countdown of thread 1 stays 0, thread 1
is still the current RUNNING thread, and no switch takes place. -/
theorem C17_sleep_does_nothing :
    exec (mkScheduler 100000) [Op.spawn (some 7), Op.timer] = some oneElected
      ∧ Reachable oneElected
      ∧ oneElected.getCurrentTid = some 1
      ∧ uthread_sleep (some oneElected) 3 = Outcome.ret 0 (some oneElected)
      ∧ (findThread oneElected.threads 1).map (fun t => t.sleep_quantum) = some 0
      ∧ (findThread oneElected.threads 1).map Thread.isAwake = some true
      ∧ (findThread oneElected.threads 1).map Thread.getState = some State.RUNNING
      ∧ uthread_get_tid (some oneElected) = Outcome.ret 1 (some oneElected) :=
  ⟨rfl, reachable_exec [Op.spawn (some 7), Op.timer] (mkScheduler 100000) oneElected
      (reachable_mkScheduler 100000 (by decide)) rfl,
    rfl, rfl, rfl, rfl, rfl, rfl⟩

/-- C18 (the election after a self-terminate touches no destroyed thread):
evaluation of the code at `init(100000)`, `spawn`, one preemption, then
`terminate(1)` called by thread 1.  After `threads.erase(1)` the pointer
`current_thread` still designates the destroyed thread 1, which is no key of
`threads`; `getCurrentTid()` reads its id through that pointer, and the handler
run by the raised signal saves the context into it and `switchContext` reads its
state: each of these steps has no defined result, and so has the call. -/
theorem C18_self_terminate_uses_destroyed_thread :
    exec (mkScheduler 100000) [Op.spawn (some 7), Op.timer] = some oneElected
      ∧ Reachable oneElected
      ∧ oneElected.getCurrentTid = some 1
      ∧ { oneElected with threads := eraseThread oneElected.threads 1 }.current_thread = 1
      ∧ findThread { oneElected with threads := eraseThread oneElected.threads 1 }.threads
          { oneElected with threads := eraseThread oneElected.threads 1 }.current_thread = none
      ∧ { oneElected with threads := eraseThread oneElected.threads 1 }.getCurrentTid = none
      ∧ { oneElected with threads := eraseThread oneElected.threads 1 }.timerHandler = none
      ∧ { oneElected with threads := eraseThread oneElected.threads 1 }.switchContext = none
      ∧ uthread_terminate (some oneElected) 1 = Outcome.undefined :=
  ⟨rfl, reachable_exec [Op.spawn (some 7), Op.timer] (mkScheduler 100000) oneElected
      (reachable_mkScheduler 100000 (by decide)) rfl,
    rfl, rfl, rfl, rfl, rfl, rfl, rfl⟩

/-- C20, the claim as written, on 32-bit counters: after `init(100000)`, `spawn`,
`spawn` and `2^31 - 1` timer preemptions (a run of spawns and preemptions only)
`total_quantums` has wrapped to `INT_MIN` while the sum of `run_quantums` is
`2^31 - 1`: `total_quantums` is not 1 plus the sum, and the last election took
`total_quantums` from `INT_MAX` to `INT_MIN` instead of adding 1. -/
theorem C20_counterexample_total_overflow :
    (∀ op ∈ Op.spawn (some 7) :: Op.spawn (some 8) :: List.replicate 2147483647 Op.timer,
        op.isSpawnOrTimer = true)
      ∧ exec32 (mkScheduler 100000)
          (Op.spawn (some 7) :: Op.spawn (some 8) :: List.replicate 2147483647 Op.timer)
          = some (rrState32 100000 7 8 2147483647)
      ∧ (rrState32 100000 7 8 2147483647).total_quantums = -2147483648
      ∧ sumRunQuantums (rrState32 100000 7 8 2147483647).threads = 2147483647
      ∧ (rrState32 100000 7 8 2147483647).total_quantums
          ≠ 1 + sumRunQuantums (rrState32 100000 7 8 2147483647).threads
      ∧ apiCall32 (some (rrState32 100000 7 8 2147483646)) Op.timer
          = Outcome.ret 0 (some (rrState32 100000 7 8 2147483647))
      ∧ (rrState32 100000 7 8 2147483646).total_quantums = 2147483647
      ∧ (rrState32 100000 7 8 2147483647).total_quantums
          ≠ (rrState32 100000 7 8 2147483646).total_quantums + 1 := by
  refine ⟨?_, rrState32_run 100000 7 8 2147483647, rfl, rfl, by decide,
    apiCall32_timer _ _ (rrState32_timer 100000 7 8 2147483646), rfl, by decide⟩
  intro op hop
  rcases List.mem_cons.1 hop with h | h
  · rw [h]; rfl
  · rcases List.mem_cons.1 h with h | h
    · rw [h]; rfl
    · rw [List.eq_of_mem_replicate h]; rfl

/-- C20, amended: right after a successful `init(q)`, `get_quantums(0) = 0` and
`get_total_quantums() = 1`; in every state reached from there by a run of spawns
and timer preemptions in which `total_quantums` stays below `INT_MAX`,
`total_quantums = 1 + ` the sum of `run_quantums` over all threads; and the
election of a timer preemption in such a state is defined, adds exactly 1 to
`total_quantums` and exactly 1 to the `run_quantums` of the elected thread, and
leaves the counter of every other thread as it was (on 32-bit `int`s). -/
theorem C20_total_is_one_plus_sum :
    (∀ q : Int, 0 < q →
        uthread_init none q = Outcome.ret 0 (some (mkScheduler q))
          ∧ uthread_get_quantums (some (mkScheduler q)) 0
              = Outcome.ret 0 (some (mkScheduler q))
          ∧ uthread_get_total_quantums (some (mkScheduler q))
              = Outcome.ret 1 (some (mkScheduler q)))
      ∧ (∀ (q : Int) (ops : List Op) (s : Scheduler), 0 < q →
          (∀ op ∈ ops, op.isSpawnOrTimer = true) →
          exec32 (mkScheduler q) ops = some s →
          (∀ x ∈ runStates32 (mkScheduler q) ops, x.total_quantums < INT_MAX) →
          s.total_quantums = 1 + sumRunQuantums s.threads
            ∧ ∃ s1, apiCall32 (some s) Op.timer = Outcome.ret 0 (some s1)
                ∧ s1.total_quantums = s.total_quantums + 1
                ∧ ∀ k, (findThread s1.threads k).map Thread.getQuantums
                    = (findThread s.threads k).map
                        (fun t => if k = s1.current_thread then t.getQuantums + 1
                                  else t.getQuantums)) := by
  refine ⟨?_, ?_⟩
  · intro q hq
    have hq0 : ¬ q ≤ 0 := by omega
    exact ⟨by simp [uthread_init, hq0], rfl, rfl⟩
  · intro q ops s _ hops hex hb
    have hi := exec32_counterInv ops (mkScheduler q) s (mkScheduler_counterInv q) hops hex hb
    have hbs := hb s (mem_runStates32_of_exec32 ops _ _ hex)
    refine ⟨hi.quantum.total, ?_⟩
    obtain ⟨s1, hbase⟩ := timerHandler_total s hi.quantum.current_live hi.quantum.queue_live
    obtain ⟨h1, h2⟩ := counterInv_no_wrap s hi hbs
    have h32 : s.timerHandler32 = some s1 := by
      rw [timerHandler32_eq_timerHandler s h1 h2]; exact hbase
    obtain ⟨_, _, _, _, _, _, htot⟩ := timerHandler_shape s s1 hbase
    exact ⟨s1, apiCall32_timer s s1 h32, htot, timerHandler_counters s s1 hbase⟩

/-- C20 at `init(100000)` and at the state after the run `spawn`, timer, with
the election that follows it. -/
theorem C20_total_is_one_plus_sum_witness :
    (uthread_init none 100000 = Outcome.ret 0 (some (mkScheduler 100000))
          ∧ uthread_get_quantums (some (mkScheduler 100000)) 0
              = Outcome.ret 0 (some (mkScheduler 100000))
          ∧ uthread_get_total_quantums (some (mkScheduler 100000))
              = Outcome.ret 1 (some (mkScheduler 100000)))
      ∧ exec32 (mkScheduler 100000) [Op.spawn (some 7), Op.timer] = some oneElected
      ∧ (oneElected.total_quantums = 1 + sumRunQuantums oneElected.threads
          ∧ ∃ s1, apiCall32 (some oneElected) Op.timer = Outcome.ret 0 (some s1)
              ∧ s1.total_quantums = oneElected.total_quantums + 1
              ∧ ∀ k, (findThread s1.threads k).map Thread.getQuantums
                  = (findThread oneElected.threads k).map
                      (fun t => if k = s1.current_thread then t.getQuantums + 1
                                else t.getQuantums)) :=
  ⟨C20_total_is_one_plus_sum.1 100000 (by decide),
   rfl,
   C20_total_is_one_plus_sum.2 100000 [Op.spawn (some 7), Op.timer] oneElected (by decide)
     (by decide) rfl (by decide)⟩

end GreenThreads
